import Mathlib

/-!
# StainVectorMath: 3x3 stain-vector kernel

A shallow embedding of `src/StainVectorMath.cpp`.  The C++ `double` is read as an element of a
linearly ordered field `K` (exact arithmetic); every definition is polymorphic in `K` and
computable, so it can be evaluated on `ℚ`, and the theorems hold in particular for `ℝ`.

One property, the norm of a normalized row, depends on the rounding of the machine operations:
for it `Make3x3MatrixUnitary` is embedded a second time, over the binary64 values with every
operation rounded (section "Double arithmetic").

Parts of the program that are not in `StainVectorMath.cpp`:

* `ODConversion::GetODMinValue()` (the stability threshold) is the parameter `odMin`;
* `std::sqrt` is the parameter `sqrt`, constrained by `IsSqrt` where its value matters;
* `boost::qvm` (`determinant`, `inverse`, `transposed`, `zero_mat`, matrix times vector) and
  `std::sort`, `std::accumulate` are external libraries, transcribed from their sources;
* `Norm`, `NormalizeArray` and the enum `SortOrder` belong to `StainVectorMath.h`, and the body
  of `MacenkoHistogram::CreatePixelSubsample` to a file of which `src/MacenkoHistogram.h` has
  the declaration only: these are modelled from the spec, and say so.
-/

set_option linter.unusedSectionVars false

namespace StainVectorMath

/-- A `double[9]` array: a 3x3 matrix stored row-major, `e(3i+j)` being row `i`, column `j`. -/
structure Mat9 (K : Type) where
  e0 : K
  e1 : K
  e2 : K
  e3 : K
  e4 : K
  e5 : K
  e6 : K
  e7 : K
  e8 : K
deriving DecidableEq, Repr

/-- A `double[3][3]` array or `boost::qvm::mat<double,3,3>`: `aij` is row `i`, column `j`. -/
structure QMat (K : Type) where
  a00 : K
  a01 : K
  a02 : K
  a10 : K
  a11 : K
  a12 : K
  a20 : K
  a21 : K
  a22 : K
deriving DecidableEq, Repr

/-- A `std::array<double,3>` or `double[3]`: one row of a matrix, or a 3-vector. -/
structure Row3 (K : Type) where
  c0 : K
  c1 : K
  c2 : K
deriving DecidableEq, Repr

section Kernel

set_option linter.unusedVariables false

variable {K : Type} [LinearOrderedField K]

/-- The loop `reshaped[x / 3][x % 3] = inputMat[x]` for `x = 0 .. 8`. -/
def reshape (m : Mat9 K) : QMat K :=
  { a00 := m.e0, a01 := m.e1, a02 := m.e2,
    a10 := m.e3, a11 := m.e4, a12 := m.e5,
    a20 := m.e6, a21 := m.e7, a22 := m.e8 }

/-- The nine assignments `inversionMat[3i+j] = A<i,j>(outputMatrix)`. -/
def flatten (q : QMat K) : Mat9 K :=
  { e0 := q.a00, e1 := q.a01, e2 := q.a02,
    e3 := q.a10, e4 := q.a11, e5 := q.a12,
    e6 := q.a20, e7 := q.a21, e8 := q.a22 }

/-- The function `boost::qvm::determinant` for 3x3 matrices (`gen/mat_operations3.hpp`). -/
def determinant (a : QMat K) : K :=
  a.a00 * (a.a11 * a.a22 - a.a12 * a.a21) - a.a01 * (a.a10 * a.a22 - a.a12 * a.a20)
    + a.a02 * (a.a10 * a.a21 - a.a11 * a.a20)

/-- The function `boost::qvm::zero_mat<double,3,3>()`. -/
def zero_mat : QMat K :=
  { a00 := 0, a01 := 0, a02 := 0, a10 := 0, a11 := 0, a12 := 0, a20 := 0, a21 := 0, a22 := 0 }

/-- The function `boost::qvm::transposed`: element `(i,j)` of the result is element `(j,i)`. -/
def transposed (a : QMat K) : QMat K :=
  { a00 := a.a00, a01 := a.a10, a02 := a.a20,
    a10 := a.a01, a11 := a.a11, a12 := a.a21,
    a20 := a.a02, a21 := a.a12, a22 := a.a22 }

/-- The function `boost::qvm::inverse` for 3x3 matrices (`gen/mat_operations3.hpp`): it throws
`zero_determinant_error` (here `none`) on a zero determinant, and otherwise scales the
adjugate by `f = 1 / det`. -/
def inverse (a : QMat K) : Option (QMat K) :=
  let det := determinant a
  if det = 0 then none
  else
    let f := 1 / det
    some
      { a00 := f * (a.a11 * a.a22 - a.a12 * a.a21),
        a01 := f * (a.a02 * a.a21 - a.a01 * a.a22),
        a02 := f * (a.a01 * a.a12 - a.a02 * a.a11),
        a10 := f * (a.a12 * a.a20 - a.a10 * a.a22),
        a11 := f * (a.a00 * a.a22 - a.a02 * a.a20),
        a12 := f * (a.a02 * a.a10 - a.a00 * a.a12),
        a20 := f * (a.a10 * a.a21 - a.a11 * a.a20),
        a21 := f * (a.a01 * a.a20 - a.a00 * a.a21),
        a22 := f * (a.a00 * a.a11 - a.a01 * a.a10) }

/-- The all-zero `double[9]`, the state of `inversionMat` after the clearing loop. -/
def Mat9.zero : Mat9 K :=
  { e0 := 0, e1 := 0, e2 := 0, e3 := 0, e4 := 0, e5 := 0, e6 := 0, e7 := 0, e8 := 0 }

/-- `StainVectorMath::Compute3x3MatrixInverse(inputMat, inversionMat)`.  `inversionMat` is the
content of the caller's output array before the call; the result is its content after the call,
or `none` when `boost::qvm::inverse` throws. -/
def Compute3x3MatrixInverse (odMin : K) (inputMat : Mat9 K) (inversionMat : Mat9 K) :
    Option (Mat9 K) :=
  -- the clearing loop overwrites all of `inversionMat`, so its prior content is never read
  let reshapedInput := reshape inputMat
  let theDeterminant := determinant reshapedInput
  if abs theDeterminant < odMin then
    some (flatten (zero_mat : QMat K))
  else
    (inverse reshapedInput).map (fun inv => flatten (transposed inv))

/-- The three `push_back` calls that bundle a `double[9]` into a vector of three rows. -/
def inputRows (inputMat : Mat9 K) : List (Row3 K) :=
  [⟨inputMat.e0, inputMat.e1, inputMat.e2⟩, ⟨inputMat.e3, inputMat.e4, inputMat.e5⟩,
   ⟨inputMat.e6, inputMat.e7, inputMat.e8⟩]

/-- The loop `out[x] = outputRows[x / 3][x % 3]` for `x = 0 .. 8`.  The vector always holds
exactly three rows when the loop runs; on any other length the array is returned as it was. -/
def assignRows (outputRows : List (Row3 K)) (out : Mat9 K) : Mat9 K :=
  match outputRows with
  | [r0, r1, r2] =>
    { e0 := r0.c0, e1 := r0.c1, e2 := r0.c2,
      e3 := r1.c0, e4 := r1.c1, e5 := r1.c2,
      e6 := r2.c0, e7 := r2.c1, e8 := r2.c2 }
  | _ => out

/-- The call `std::accumulate(row.begin(), row.end(), 0.0)`: a left fold of `+` from `0`. -/
def accumulate (row : Row3 K) : K := ((0 + row.c0) + row.c1) + row.c2

/-- Modelled from the spec: `StainVectorMath::Norm` is a template of `StainVectorMath.h`, which
is not among the sources; the spec calls its result the Euclidean norm of the row.  `sqrt`
stands for `std::sqrt`. -/
def Norm (sqrt : K → K) (row : Row3 K) : K :=
  sqrt (row.c0 ^ 2 + row.c1 ^ 2 + row.c2 ^ 2)

/-- Modelled from the spec: `StainVectorMath::NormalizeArray` is a template of
`StainVectorMath.h`, which is not among the sources; the spec calls its result the
unit-normalized vector, that is each component divided by the Euclidean norm. -/
def NormalizeArray (sqrt : K → K) (arr : Row3 K) : Row3 K :=
  ⟨arr.c0 / Norm sqrt arr, arr.c1 / Norm sqrt arr, arr.c2 / Norm sqrt arr⟩

/-- What exact arithmetic asks of `std::sqrt`: on a non-negative argument the result is the
non-negative square root. -/
def IsSqrt (sqrt : K → K) : Prop :=
  ∀ x : K, 0 ≤ x → 0 ≤ sqrt x ∧ sqrt x * sqrt x = x

/-- The body of the loop of `Make3x3MatrixUnitary` for one norm value `*it` and its row. -/
def unitaryAddRow (odMin : K) (normVal : K) (row : Row3 K) : Row3 K :=
  let smallValue : Bool := decide (normVal < 10 * odMin)
  if smallValue then
    -- do not modify
    row
  else
    ⟨row.c0 / normVal, row.c1 / normVal, row.c2 / normVal⟩

/-- `StainVectorMath::Make3x3MatrixUnitary(inputMat, unitaryMat)`: the content of `unitaryMat`
after the call. -/
def Make3x3MatrixUnitary (odMin : K) (sqrt : K → K) (inputMat : Mat9 K) (unitaryMat : Mat9 K) :
    Mat9 K :=
  let rows := inputRows inputMat
  let normVals := rows.map (Norm sqrt)
  let outputRows := List.zipWith (unitaryAddRow odMin) normVals rows
  assignRows outputRows unitaryMat

/-- `StainVectorMath::ConvertZeroRowsToUnitary(inputMat, unitaryMat, replacementVals)`: the
content of `unitaryMat` after the call. -/
def ConvertZeroRowsToUnitary (odMin : K) (sqrt : K → K) (inputMat : Mat9 K) (unitaryMat : Mat9 K)
    (replacementVals : Row3 K) : Mat9 K :=
  let rows := inputRows inputMat
  let normVals := rows.map (Norm sqrt)
  -- Compare against 10xGetODMinValue, set to unitary row if smaller
  let replacementArray : Row3 K := ⟨replacementVals.c0, replacementVals.c1, replacementVals.c2⟩
  let unitaryRow := NormalizeArray sqrt replacementArray
  let outputRows := List.zipWith
    (fun normVal row =>
      let smallValue : Bool := decide (normVal < 10 * odMin)
      if smallValue then unitaryRow else row)
    normVals rows
  assignRows outputRows unitaryMat

/-- `StainVectorMath::ConvertZeroRowsToUnitary(inputMat, unitaryMat)`, the overload that fixes
the replacement values to `{1.0, 1.0, 1.0}`. -/
def ConvertZeroRowsToUnitaryDefault (odMin : K) (sqrt : K → K) (inputMat : Mat9 K)
    (unitaryMat : Mat9 K) : Mat9 K :=
  let replacementVals : Row3 K := ⟨1, 1, 1⟩
  ConvertZeroRowsToUnitary odMin sqrt inputMat unitaryMat replacementVals

/-- A `std::array<bool,3>`. -/
structure Bool3 where
  b0 : Bool
  b1 : Bool
  b2 : Bool
deriving DecidableEq, Repr

/-- The value `checkVal` of `RowSumZeroCheck` for one row. -/
def rowCheckVal (odMin : K) (sqrt : K → K) (row : Row3 K) : Bool :=
  let rowSum := accumulate row
  let normVal := Norm sqrt row
  decide (abs rowSum < odMin) && decide (normVal > 0)

/-- `StainVectorMath::RowSumZeroCheck(inputMat)`. -/
def RowSumZeroCheck (odMin : K) (sqrt : K → K) (inputMat : Mat9 K) : Bool3 :=
  { b0 := rowCheckVal odMin sqrt ⟨inputMat.e0, inputMat.e1, inputMat.e2⟩,
    b1 := rowCheckVal odMin sqrt ⟨inputMat.e3, inputMat.e4, inputMat.e5⟩,
    b2 := rowCheckVal odMin sqrt ⟨inputMat.e6, inputMat.e7, inputMat.e8⟩ }

/-- `StainVectorMath::Multiply3x3MatrixAndVector(inputMat, inputVec, outputVec)`: the content of
`outputVec` after the call.  The product is `boost::qvm`'s `operator*` of a 3x3 matrix and a
3-vector (`gen/vec_mat_operations3.hpp`). -/
def Multiply3x3MatrixAndVector (inputMat : Mat9 K) (inputVec : Row3 K) (outputVec : Row3 K) :
    Row3 K :=
  let a := reshape inputMat
  { c0 := a.a00 * inputVec.c0 + a.a01 * inputVec.c1 + a.a02 * inputVec.c2,
    c1 := a.a10 * inputVec.c0 + a.a11 * inputVec.c1 + a.a12 * inputVec.c2,
    c2 := a.a20 * inputVec.c0 + a.a21 * inputVec.c1 + a.a22 * inputVec.c2 }

/-- The constant `prec = 1e-3` of both comparators. -/
def prec : K := 1 / 1000

/-- The comparator `ascLambda` of `SortStainVectors`. -/
def ascLambda (a b : Row3 K) : Bool :=
  -- Always put (0,0,0) stain vectors at the end
  let aSum := abs (accumulate a)
  let bSum := abs (accumulate b)
  if aSum < prec then false
  else if bSum < prec then true
  -- If first element is the same within error, sort by second element
  else if abs (a.c0 - b.c0) > prec then decide (a.c0 < b.c0)
  -- If second element is the same within error, sort by third element
  else if abs (a.c1 - b.c1) > prec then decide (a.c1 < b.c1)
  else decide (a.c2 < b.c2)

/-- The comparator `descLambda` of `SortStainVectors`. -/
def descLambda (a b : Row3 K) : Bool :=
  let aSum := abs (accumulate a)
  let bSum := abs (accumulate b)
  if aSum < prec then false
  else if bSum < prec then true
  else if abs (a.c0 - b.c0) > prec then decide (a.c0 > b.c0)
  else if abs (a.c1 - b.c1) > prec then decide (a.c1 > b.c1)
  else decide (a.c2 ≥ b.c2)

end Kernel

section StdSort

variable {α : Type}

/-- The helper `__unguarded_linear_insert` of `std::sort`: `val` moves towards the front past
every element it compares below.  The argument is the sorted prefix in reverse (nearest element
first), and so is the result.  The loop has no bound check of its own: the caller has found
`comp val first` false, which stops it at the first element at the latest. -/
def unguarded_linear_insert (comp : α → α → Bool) (val : α) : List α → List α
  | [] => [val]
  | next :: rest =>
    if comp val next then next :: unguarded_linear_insert comp val rest
    else val :: next :: rest

/-- One round of `__insertion_sort`: the element `val` after the sorted prefix goes to the
front when it compares below the first element, and is inserted linearly otherwise. -/
def insertion_step (comp : α → α → Bool) (sortedPrefix : List α) (val : α) : List α :=
  match sortedPrefix with
  | [] => [val]
  | first :: _ =>
    if comp val first then val :: sortedPrefix
    else (unguarded_linear_insert comp val sortedPrefix.reverse).reverse

/-- The call `std::sort(first, last, comp)` on a short range: both libstdc++ (up to 16
elements) and the Microsoft STL (up to 32) run a plain insertion sort there. -/
def std_sort (comp : α → α → Bool) : List α → List α
  | [] => []
  | x :: xs => xs.foldl (insertion_step comp) [x]

end StdSort

/-- Modelled from the spec: the enum `SortOrder` is declared in `StainVectorMath.h`, which is
not among the sources; the spec lists the orders ascending, descending and none.  The
enumerators are numbered the way C++ numbers them by default. -/
def SortOrder.ASCENDING : Int := 0

/-- Modelled from the spec: see `SortOrder.ASCENDING`. -/
def SortOrder.DESCENDING : Int := 1

/-- Modelled from the spec: see `SortOrder.ASCENDING`. -/
def SortOrder.NONE : Int := 2

section Sorting

variable {K : Type} [LinearOrderedField K]

/-- `StainVectorMath::SortStainVectors(inputMat, outputMat, sortOrder)`: the content of
`outputMat` after the call. -/
def SortStainVectors (inputMat : Mat9 K) (outputMat : Mat9 K) (sortOrder : Int) : Mat9 K :=
  let outputRows := inputRows inputMat
  if sortOrder = SortOrder.ASCENDING then
    assignRows (std_sort ascLambda outputRows) outputMat
  else if sortOrder = SortOrder.DESCENDING then
    assignRows (std_sort descLambda outputRows) outputMat
  else
    -- do not fill the output matrix
    outputMat

/-- The outcome of a call of `SortStainVectors`, with C++ exceptions as `Except.error`: the
function has no `throw` statement and calls nothing that throws, so every call returns
normally, with the content of `outputMat` after the call. -/
def SortStainVectorsOutcome (inputMat : Mat9 K) (outputMat : Mat9 K) (sortOrder : Int) :
    Except String (Mat9 K) :=
  Except.ok (SortStainVectors inputMat outputMat sortOrder)

/-- The rows of a `double[9]` matrix, by index. -/
def Mat9.row (m : Mat9 K) (i : Fin 3) : Row3 K :=
  match i with
  | 0 => ⟨m.e0, m.e1, m.e2⟩
  | 1 => ⟨m.e3, m.e4, m.e5⟩
  | 2 => ⟨m.e6, m.e7, m.e8⟩

/-- A row is a null stain vector for the sort when its component sum is below `prec` in
absolute value. -/
def isNullRow (r : Row3 K) : Prop := abs (accumulate r) < prec

end Sorting

section MatrixView

variable {K : Type} [LinearOrderedField K]

/-- The 3x3 matrix denoted by a row-major `double[9]`. -/
def Mat9.toMatrix (m : Mat9 K) : Matrix (Fin 3) (Fin 3) K :=
  Matrix.of ![![m.e0, m.e1, m.e2], ![m.e3, m.e4, m.e5], ![m.e6, m.e7, m.e8]]

/-- The 3x3 matrix denoted by a `double[3][3]`. -/
def QMat.toMatrix (q : QMat K) : Matrix (Fin 3) (Fin 3) K :=
  Matrix.of ![![q.a00, q.a01, q.a02], ![q.a10, q.a11, q.a12], ![q.a20, q.a21, q.a22]]

/-- The determinant of a `double[9]` matrix, as the code computes it. -/
def Mat9.det (m : Mat9 K) : K := determinant (reshape m)

end MatrixView

/-! ## Pixel sub-sampling (`MacenkoHistogram`) -/

section Subsample

variable {G ρ : Type}

/-- Modelled from the spec: the body of `MacenkoHistogram::CreatePixelSubsample` is not among
the sources (`MacenkoHistogram.h` only declares it).  This is the spec's selection of `k`
distinct rows without replacement, assembled in selection order: each round draws a number
from the owned generator (`draw` returns the number and the advanced generator state), takes
the row at that index among the rows not yet selected, and removes it from them. -/
def MacenkoHistogram.selectRows (draw : G → Nat × G) : Nat → G → List ρ → List ρ × G
  | 0, g, _ => ([], g)
  | _ + 1, g, [] => ([], g)
  | k + 1, g, p :: ps =>
    let idx := (draw g).1 % (p :: ps).length
    let chosen := (p :: ps).getD idx p
    let rest := MacenkoHistogram.selectRows draw k (draw g).2 ((p :: ps).eraseIdx idx)
    (chosen :: rest.1, rest.2)

/-- Modelled from the spec: the body of `MacenkoHistogram::CreatePixelSubsample` is not among
the sources (`MacenkoHistogram.h` only declares it).  By the spec, with `numberOfPixels` at
least the number `R` of source rows the call returns all rows, in an order that "may be
shuffled or preserved" (the flag `shuffleAll` is that choice); otherwise it selects
`numberOfPixels` distinct rows without replacement.  The result is the sub-sample and the state
of the owned generator `m_rgen` after the call. -/
def MacenkoHistogram.CreatePixelSubsample (draw : G → Nat × G) (shuffleAll : Bool) (m_rgen : G)
    (sourcePixels : List ρ) (numberOfPixels : Int) : List ρ × G :=
  if numberOfPixels ≥ (sourcePixels.length : Int) then
    if shuffleAll then MacenkoHistogram.selectRows draw sourcePixels.length m_rgen sourcePixels
    else (sourcePixels, m_rgen)
  else MacenkoHistogram.selectRows draw numberOfPixels.toNat m_rgen sourcePixels

end Subsample

/-- A generator for the evaluations: the state is a counter, and each draw returns five times
the counter plus four. -/
def counterDraw (g : Nat) : Nat × Nat := (5 * g + 4, g + 1)

/-- Three source pixels of two channels each. -/
def threePixels : List (List ℚ) := [[1, 2], [3, 4], [5, 6]]

/-! ## Double arithmetic

The kernel above reads a `double` as an exact number.  Where the rounding of the machine
operations decides a property, the finite IEEE 754 binary64 values are read as the rationals
they denote, and each operation is the exact operation followed by the rounding to the nearest
binary64 value, ties to the even significand.  Infinities, NaN and a division by zero are
outside this reading. -/

/-- The nearest integer to a rational, and the even one of the two on a tie. -/
def roundHalfEven (q : ℚ) : ℤ :=
  let f := ⌊q⌋
  if q - f < 1 / 2 then f
  else if 1 / 2 < q - f then f + 1
  else if f % 2 = 0 then f else f + 1

/-- The binary64 value nearest to `x`, ties to even: the significand has 53 bits, so the last
bit weighs `2 ^ (e - 52)` for `2 ^ e ≤ |x| < 2 ^ (e + 1)`, and `2 ^ (-1074)` below the normal
range (an overflow beyond the largest binary64 value is not represented). -/
def roundDouble (x : ℚ) : ℚ :=
  if x = 0 then 0
  else
    let e := max (Int.log 2 (abs x)) (-1022) - 52
    (roundHalfEven (x / 2 ^ e) : ℚ) * 2 ^ e

/-- The call `std::sqrt(x)` on a `double`: IEEE 754 has it correctly rounded, that is the
binary64 value nearest to the real square root, ties to even.  With `2 ^ k` the weight of the
last bit of the result, `t` is the integer part of the root of `r = x / 4 ^ k`, and the root
is below or above `t + 1/2` as `r` is below or above `t^2 + t + 1/4`.  A negative argument
(NaN in C++) is outside the reading and gives 0 here. -/
def sqrtDouble (x : ℚ) : ℚ :=
  if x ≤ 0 then 0
  else
    let k := Int.log 2 x / 2 - 52
    let r := x / 2 ^ (2 * k)
    let t := Nat.sqrt ⌊r⌋₊
    let mid : ℚ := (t : ℚ) ^ 2 + t + 1 / 4
    let m : ℕ := if r < mid then t else if mid < r then t + 1 else if t % 2 = 0 then t else t + 1
    (m : ℚ) * 2 ^ k

/-- The sum `a + b` of two `double`s. -/
def addDouble (a b : ℚ) : ℚ := roundDouble (a + b)

/-- The product `a * b` of two `double`s. -/
def mulDouble (a b : ℚ) : ℚ := roundDouble (a * b)

/-- The quotient `a / b` of two `double`s. -/
def divDouble (a b : ℚ) : ℚ := roundDouble (a / b)

/-- Modelled from the spec: `StainVectorMath::Norm` is a template of `StainVectorMath.h`, which
is not among the sources; the spec calls its result the Euclidean norm of the row.  In double
arithmetic: the squares of the components, summed from `0.0` in order, and `std::sqrt`. -/
def NormDouble (row : Row3 ℚ) : ℚ :=
  sqrtDouble (addDouble (addDouble (addDouble 0 (mulDouble row.c0 row.c0))
    (mulDouble row.c1 row.c1)) (mulDouble row.c2 row.c2))

/-- The body of the loop of `Make3x3MatrixUnitary` for one norm value `*it` and its row, in
double arithmetic. -/
def unitaryAddRowDouble (odMin : ℚ) (normVal : ℚ) (row : Row3 ℚ) : Row3 ℚ :=
  let smallValue : Bool := decide (normVal < mulDouble 10 odMin)
  if smallValue then
    -- do not modify
    row
  else
    ⟨divDouble row.c0 normVal, divDouble row.c1 normVal, divDouble row.c2 normVal⟩

/-- `StainVectorMath::Make3x3MatrixUnitary(inputMat, unitaryMat)` in double arithmetic: the
content of `unitaryMat` after the call. -/
def Make3x3MatrixUnitaryDouble (odMin : ℚ) (inputMat : Mat9 ℚ) (unitaryMat : Mat9 ℚ) : Mat9 ℚ :=
  let rows := inputRows inputMat
  let normVals := rows.map NormDouble
  let outputRows := List.zipWith (unitaryAddRowDouble odMin) normVals rows
  assignRows outputRows unitaryMat

/-- A matrix of `double`s with first row `(1, 1, 0)` and two all-zero rows. -/
def diagonalRowMat : Mat9 ℚ := ⟨1, 1, 0, 0, 0, 0, 0, 0, 0⟩

/-! ## Inputs of the concrete evaluations -/

/-- A shear matrix with determinant 1. -/
def shearMat : Mat9 ℚ := ⟨1, 1, 0, 0, 1, 0, 0, 0, 1⟩

/-- What `Compute3x3MatrixInverse` writes for `shearMat`. -/
def shearMatOut : Mat9 ℚ := ⟨1, 0, 0, -1, 1, 0, 0, 0, 1⟩

/-- A diagonal matrix whose determinant `1 / 10000000` is not zero but below `1 / 1000000`. -/
def tinyDiagMat : Mat9 ℚ := ⟨1 / 10000000, 0, 0, 0, 1, 0, 0, 0, 1⟩

/-- The identity matrix as a `double[9]`. -/
def identityMat : Mat9 ℚ := ⟨1, 0, 0, 0, 1, 0, 0, 0, 1⟩

/-- A real matrix with a row of norm 5, an all-zero row and a unit row. -/
def realMat345 : Mat9 ℝ := ⟨3, 4, 0, 0, 0, 0, 1, 0, 0⟩

/-- A real matrix whose first row `(1, -1, 0)` has component sum zero and a positive norm. -/
def realMatCancel : Mat9 ℝ := ⟨1, -1, 0, 0, 1, 0, 0, 0, 1⟩

/-- The replacement vector `(1, 0, 0)`, which is its own unit-normalized form. -/
def realUnitX : Row3 ℝ := ⟨1, 0, 0⟩

/-- The flag of row `i` in a `std::array<bool,3>`. -/
def Bool3.get (b : Bool3) (i : Fin 3) : Bool :=
  match i with
  | 0 => b.b0
  | 1 => b.b1
  | 2 => b.b2

/-- The rows of the spec's sorting scenario: a null row, then `(0.3, 0.6, 0.2)` and
`(0.7, 0.1, 0.1)`. -/
def scenarioMat : Mat9 ℚ := ⟨0, 0, 0, 3 / 10, 6 / 10, 2 / 10, 7 / 10, 1 / 10, 1 / 10⟩

/-- Two null rows before a non-null row. -/
def twoNullMat : Mat9 ℚ := ⟨0, 0, 0, 0, 0, 0, 1, 1, 1⟩

/-- Three non-null rows `a`, `b`, `c` whose first components `0`, `0.0008`, `0.0016` are
0.0008 apart, with second components `5`, `3`, `1`: the ascending comparator puts `b` before
`a` and `c` before `b` by the second component, and `a` before `c` by the first. -/
def cycleMat : Mat9 ℚ := ⟨0, 5, 0, 8 / 10000, 3, 0, 16 / 10000, 1, 0⟩

/-- Two rows are apart in their first component when, both being non-null, their first
components differ by more than `prec`. -/
def firstApart {K : Type} [LinearOrderedField K] (a b : Row3 K) : Prop :=
  ¬ isNullRow a → ¬ isNullRow b → abs (a.c0 - b.c0) > prec

/-! ## Matrix inversion -/

section InverseLemmas

variable {K : Type} [LinearOrderedField K]

theorem determinant_eq_det (q : QMat K) : determinant q = (QMat.toMatrix q).det := by
  simp [determinant, QMat.toMatrix, Matrix.det_fin_three]
  ring

theorem toMatrix_reshape (m : Mat9 K) : QMat.toMatrix (reshape m) = Mat9.toMatrix m := rfl

theorem toMatrix_flatten (q : QMat K) : Mat9.toMatrix (flatten q) = QMat.toMatrix q := rfl

theorem toMatrix_transposed (q : QMat K) :
    QMat.toMatrix (transposed q) = (QMat.toMatrix q).transpose := by
  ext i j
  fin_cases i <;> fin_cases j <;> rfl

theorem reshape_flatten (q : QMat K) : reshape (flatten q) = q := rfl

theorem flatten_reshape (m : Mat9 K) : flatten (reshape m) = m := rfl

theorem QMat.toMatrix_injective (p q : QMat K) (h : QMat.toMatrix p = QMat.toMatrix q) :
    p = q := by
  obtain ⟨p00, p01, p02, p10, p11, p12, p20, p21, p22⟩ := p
  obtain ⟨q00, q01, q02, q10, q11, q12, q20, q21, q22⟩ := q
  have e := fun i j => congrFun (congrFun h i) j
  have h00 := e 0 0
  have h01 := e 0 1
  have h02 := e 0 2
  have h10 := e 1 0
  have h11 := e 1 1
  have h12 := e 1 2
  have h20 := e 2 0
  have h21 := e 2 1
  have h22 := e 2 2
  simp [QMat.toMatrix] at h00 h01 h02 h10 h11 h12 h20 h21 h22
  subst h00 h01 h02 h10 h11 h12 h20 h21 h22
  rfl

theorem det_eq_matrix_det (m : Mat9 K) : Mat9.det m = (Mat9.toMatrix m).det := by
  rw [Mat9.det, determinant_eq_det, toMatrix_reshape]

/-- The function `boost::qvm::inverse` returns a value exactly when the determinant is not zero. -/
theorem inverse_isSome (a : QMat K) (h : determinant a ≠ 0) : ∃ inv, inverse a = some inv := by
  simp [inverse, h]

/-- The matrix that `boost::qvm::inverse` returns is a right inverse of its argument. -/
theorem inverse_mul (a inv : QMat K) (h : inverse a = some inv) :
    QMat.toMatrix a * QMat.toMatrix inv = 1 := by
  obtain ⟨m0, m1, m2, m3, m4, m5, m6, m7, m8⟩ := a
  by_cases hd : determinant (QMat.mk m0 m1 m2 m3 m4 m5 m6 m7 m8) = 0
  · simp [inverse, hd] at h
  · simp only [inverse, hd, if_false, Option.some.injEq] at h
    subst h
    generalize hdet : determinant (QMat.mk m0 m1 m2 m3 m4 m5 m6 m7 m8) = d at hd
    simp only [determinant] at hdet
    ext i j
    fin_cases i <;> fin_cases j <;>
      simp [QMat.toMatrix, Matrix.mul_apply, Fin.sum_univ_three] <;>
      field_simp <;>
      first
        | (rw [← hdet]; ring)
        | ring

/-- Above the threshold, and with a non-zero determinant, the call returns the flattened
transpose of `boost::qvm::inverse`. -/
theorem Compute3x3MatrixInverse_of_ge (odMin : K) (M out : Mat9 K)
    (hge : odMin ≤ abs (Mat9.det M)) (hne : Mat9.det M ≠ 0) :
    ∃ inv, inverse (reshape M) = some inv ∧
      Compute3x3MatrixInverse odMin M out = some (flatten (transposed inv)) := by
  obtain ⟨inv, hinv⟩ := inverse_isSome (reshape M) hne
  refine ⟨inv, hinv, ?_⟩
  have hlt : ¬ abs (determinant (reshape M)) < odMin := not_lt.mpr hge
  simp [Compute3x3MatrixInverse, hlt, hinv]

/-- Strictly below the threshold the call writes the zero matrix. -/
theorem Compute3x3MatrixInverse_of_lt (odMin : K) (M out : Mat9 K)
    (hlt : abs (Mat9.det M) < odMin) :
    Compute3x3MatrixInverse odMin M out = some (Mat9.mk 0 0 0 0 0 0 0 0 0) := by
  have h : abs (determinant (reshape M)) < odMin := hlt
  simp [Compute3x3MatrixInverse, h, flatten, zero_mat]

theorem det_ne_zero_of_ge (odMin : K) (M : Mat9 K) (hpos : 0 < odMin)
    (hge : odMin ≤ abs (Mat9.det M)) : Mat9.det M ≠ 0 := by
  intro h
  rw [h, abs_zero] at hge
  exact absurd hpos (not_lt.mpr hge)

end InverseLemmas

section InverseClaims

variable {K : Type} [LinearOrderedField K]

/-- C1, as stated, fails: for the shear matrix (determinant 1, above the threshold
`1 / 1000000`) the call writes `shearMatOut`, and the input times that output is not the
identity matrix. -/
theorem C1_product_with_output_not_identity :
    (1 / 1000000 : ℚ) ≤ abs (Mat9.det shearMat) ∧
    Compute3x3MatrixInverse (1 / 1000000 : ℚ) shearMat Mat9.zero = some shearMatOut ∧
    Mat9.toMatrix shearMat * Mat9.toMatrix shearMatOut ≠ 1 := by
  refine ⟨?_, ?_, ?_⟩
  · norm_num [Mat9.det, determinant, reshape, shearMat]
  · norm_num [Compute3x3MatrixInverse, inverse, determinant, reshape, flatten, transposed,
      shearMat, shearMatOut, Mat9.zero]
  · intro h
    have h01 := congrFun (congrFun h 0) 1
    norm_num [Mat9.toMatrix, shearMat, shearMatOut, Matrix.mul_apply, Fin.sum_univ_three] at h01

/-- C1, amended: for a positive threshold and every matrix `M` with `|det M|` at or above it,
the call returns a matrix `R` whose transpose is the inverse of `M`: `M * Rᵀ = 1`. -/
theorem C1_output_is_transposed_inverse (odMin : K) (M out : Mat9 K) (hpos : 0 < odMin)
    (hge : odMin ≤ abs (Mat9.det M)) :
    ∃ R, Compute3x3MatrixInverse odMin M out = some R ∧
      Mat9.toMatrix M * (Mat9.toMatrix R).transpose = 1 := by
  have hne : Mat9.det M ≠ 0 := det_ne_zero_of_ge odMin M hpos hge
  obtain ⟨inv, hinv, hR⟩ := Compute3x3MatrixInverse_of_ge odMin M out hge hne
  refine ⟨_, hR, ?_⟩
  rw [toMatrix_flatten, toMatrix_transposed, Matrix.transpose_transpose, ← toMatrix_reshape]
  exact inverse_mul _ _ hinv

/-- C1, amended, at the shear matrix with threshold `1 / 1000000`. -/
theorem C1_output_is_transposed_inverse_witness :
    ∃ R, Compute3x3MatrixInverse (1 / 1000000 : ℚ) shearMat Mat9.zero = some R ∧
      Mat9.toMatrix shearMat * (Mat9.toMatrix R).transpose = 1 :=
  C1_output_is_transposed_inverse (1 / 1000000 : ℚ) shearMat Mat9.zero (by norm_num)
    (by norm_num [Mat9.det, determinant, reshape, shearMat])

/-- C2: when `|det M|` is strictly below the threshold, the call returns normally and all nine
output entries are zero, whatever the output array held before. -/
theorem C2_below_threshold_writes_zero (odMin : K) (M out : Mat9 K)
    (hlt : abs (Mat9.det M) < odMin) :
    Compute3x3MatrixInverse odMin M out = some (Mat9.mk 0 0 0 0 0 0 0 0 0) :=
  Compute3x3MatrixInverse_of_lt odMin M out hlt

/-- C2 at the matrix `tinyDiagMat` with threshold `1 / 1000000` and a non-zero prior output. -/
theorem C2_below_threshold_writes_zero_witness :
    abs (Mat9.det tinyDiagMat) < (1 / 1000000 : ℚ) ∧
    Compute3x3MatrixInverse (1 / 1000000 : ℚ) tinyDiagMat identityMat
      = some (Mat9.mk 0 0 0 0 0 0 0 0 0) :=
  ⟨by norm_num [Mat9.det, determinant, reshape, tinyDiagMat, abs_lt],
   C2_below_threshold_writes_zero (1 / 1000000 : ℚ) tinyDiagMat identityMat
    (by norm_num [Mat9.det, determinant, reshape, tinyDiagMat, abs_lt])⟩

/-- C3, as stated, fails: `tinyDiagMat` is non-singular, yet with threshold `1 / 1000000` its
determinant is below the threshold, the first call writes zeros, and so does the second. -/
theorem C3_round_trip_fails_below_threshold :
    Mat9.det tinyDiagMat ≠ 0 ∧
    (Compute3x3MatrixInverse (1 / 1000000 : ℚ) tinyDiagMat Mat9.zero).bind
        (fun R => Compute3x3MatrixInverse (1 / 1000000 : ℚ) R Mat9.zero)
      = some (Mat9.mk 0 0 0 0 0 0 0 0 0) ∧
    (Compute3x3MatrixInverse (1 / 1000000 : ℚ) tinyDiagMat Mat9.zero).bind
        (fun R => Compute3x3MatrixInverse (1 / 1000000 : ℚ) R Mat9.zero)
      ≠ some tinyDiagMat := by
  have h1 : Compute3x3MatrixInverse (1 / 1000000 : ℚ) tinyDiagMat Mat9.zero
      = some (Mat9.mk 0 0 0 0 0 0 0 0 0) :=
    Compute3x3MatrixInverse_of_lt _ _ _
      (by norm_num [Mat9.det, determinant, reshape, tinyDiagMat, abs_lt])
  have h2 : Compute3x3MatrixInverse (1 / 1000000 : ℚ) (Mat9.mk 0 0 0 0 0 0 0 0 0) Mat9.zero
      = some (Mat9.mk 0 0 0 0 0 0 0 0 0) :=
    Compute3x3MatrixInverse_of_lt _ _ _ (by norm_num [Mat9.det, determinant, reshape])
  refine ⟨?_, ?_, ?_⟩
  · norm_num [Mat9.det, determinant, reshape, tinyDiagMat]
  · rw [h1, Option.some_bind, h2]
  · rw [h1, Option.some_bind, h2]
    norm_num [tinyDiagMat]

/-- C3, amended: for a positive threshold and every matrix `M` with
`threshold ≤ |det M|` and `threshold ≤ 1 / |det M|`, both calls return normally and the second
returns `M`. -/
theorem C3_round_trip_within_thresholds (odMin : K) (M out1 out2 : Mat9 K) (hpos : 0 < odMin)
    (hge : odMin ≤ abs (Mat9.det M)) (hle : odMin ≤ 1 / abs (Mat9.det M)) :
    (Compute3x3MatrixInverse odMin M out1).bind
        (fun R => Compute3x3MatrixInverse odMin R out2) = some M := by
  have hne : Mat9.det M ≠ 0 := det_ne_zero_of_ge odMin M hpos hge
  obtain ⟨inv, hinv, hR⟩ := Compute3x3MatrixInverse_of_ge odMin M out1 hge hne
  have hmul : Mat9.toMatrix M * QMat.toMatrix inv = 1 := by
    rw [← toMatrix_reshape]
    exact inverse_mul _ _ hinv
  -- the determinant of the first output is the reciprocal of `det M`
  have hdetR : Mat9.det (flatten (transposed inv)) = 1 / Mat9.det M := by
    have hprod : Mat9.det M * Mat9.det (flatten (transposed inv)) = 1 := by
      rw [det_eq_matrix_det, det_eq_matrix_det, toMatrix_flatten, toMatrix_transposed,
        Matrix.det_transpose, ← Matrix.det_mul, hmul, Matrix.det_one]
    field_simp
    rw [mul_comm]
    exact hprod
  have hge2 : odMin ≤ abs (Mat9.det (flatten (transposed inv))) := by
    rw [hdetR, abs_div, abs_one]
    exact hle
  have hne2 : Mat9.det (flatten (transposed inv)) ≠ 0 := det_ne_zero_of_ge odMin _ hpos hge2
  obtain ⟨inv2, hinv2, hR2⟩ :=
    Compute3x3MatrixInverse_of_ge odMin (flatten (transposed inv)) out2 hge2 hne2
  rw [hR, Option.some_bind, hR2]
  -- `inv2` inverts the transpose of `inv`, and so does the transpose of `M`
  have hmul2 : (QMat.toMatrix inv).transpose * QMat.toMatrix inv2 = 1 := by
    rw [← toMatrix_transposed]
    exact inverse_mul _ _ hinv2
  have hmulT : (QMat.toMatrix inv).transpose * (Mat9.toMatrix M).transpose = 1 := by
    rw [← Matrix.transpose_mul, hmul, Matrix.transpose_one]
  have hinv2eq : QMat.toMatrix inv2 = (Mat9.toMatrix M).transpose := by
    have hcomm : QMat.toMatrix inv2 * (QMat.toMatrix inv).transpose = 1 :=
      (Matrix.mul_eq_one_comm).mp hmul2
    calc QMat.toMatrix inv2
        = QMat.toMatrix inv2 * ((QMat.toMatrix inv).transpose * (Mat9.toMatrix M).transpose) := by
          rw [hmulT, Matrix.mul_one]
      _ = (Mat9.toMatrix M).transpose := by
          rw [← Matrix.mul_assoc, hcomm, Matrix.one_mul]
  have hq : transposed inv2 = reshape M := by
    apply QMat.toMatrix_injective
    rw [toMatrix_transposed, hinv2eq, Matrix.transpose_transpose, toMatrix_reshape]
  rw [hq, flatten_reshape]

/-- C3, amended, at the shear matrix with threshold `1 / 1000000`. -/
theorem C3_round_trip_within_thresholds_witness :
    (Compute3x3MatrixInverse (1 / 1000000 : ℚ) shearMat Mat9.zero).bind
        (fun R => Compute3x3MatrixInverse (1 / 1000000 : ℚ) R Mat9.zero) = some shearMat :=
  C3_round_trip_within_thresholds (1 / 1000000 : ℚ) shearMat Mat9.zero Mat9.zero (by norm_num)
    (by norm_num [Mat9.det, determinant, reshape, shearMat])
    (by norm_num [Mat9.det, determinant, reshape, shearMat])

end InverseClaims

/-! ## Row normalization, zero-row repair and zero-sum detection -/

section RowLemmas

variable {K : Type} [LinearOrderedField K]

theorem Make3x3MatrixUnitary_row (odMin : K) (sqrt : K → K) (M out : Mat9 K) (i : Fin 3) :
    (Make3x3MatrixUnitary odMin sqrt M out).row i
      = unitaryAddRow odMin (Norm sqrt (M.row i)) (M.row i) := by
  fin_cases i <;> rfl

theorem ConvertZeroRowsToUnitary_row (odMin : K) (sqrt : K → K) (M out : Mat9 K)
    (repl : Row3 K) (i : Fin 3) :
    (ConvertZeroRowsToUnitary odMin sqrt M out repl).row i
      = if Norm sqrt (M.row i) < 10 * odMin then NormalizeArray sqrt repl else M.row i := by
  fin_cases i <;>
    simp [ConvertZeroRowsToUnitary, inputRows, assignRows, Mat9.row]

theorem RowSumZeroCheck_get (odMin : K) (sqrt : K → K) (M : Mat9 K) (i : Fin 3) :
    (RowSumZeroCheck odMin sqrt M).get i = rowCheckVal odMin sqrt (M.row i) := by
  fin_cases i <;> rfl

theorem IsSqrt.sqrt_zero {sqrt : K → K} (hs : IsSqrt sqrt) : sqrt 0 = 0 := by
  have h := (hs 0 le_rfl).2
  exact mul_self_eq_zero.mp h

theorem IsSqrt.sqrt_one {sqrt : K → K} (hs : IsSqrt sqrt) : sqrt 1 = 1 := by
  obtain ⟨h0, h1⟩ := hs 1 zero_le_one
  have h : (sqrt 1 - 1) * (sqrt 1 + 1) = 0 := by ring_nf; rw [pow_two, h1]; ring
  rcases mul_eq_zero.mp h with h | h
  · linarith
  · linarith

theorem sumSq_nonneg (r : Row3 K) : 0 ≤ r.c0 ^ 2 + r.c1 ^ 2 + r.c2 ^ 2 := by positivity

theorem isSqrt_real : IsSqrt Real.sqrt :=
  fun x hx => ⟨Real.sqrt_nonneg x, Real.mul_self_sqrt hx⟩

theorem norm_realMat345_row0 : Norm Real.sqrt (realMat345.row 0) = 5 := by
  have h : ((3 : ℝ) ^ 2 + 4 ^ 2 + 0 ^ 2) = 5 ^ 2 := by norm_num
  simp only [Norm, realMat345, Mat9.row]
  rw [h, Real.sqrt_sq (by norm_num)]

theorem norm_realMat345_row1 : Norm Real.sqrt (realMat345.row 1) = 0 := by
  simp [Norm, realMat345, Mat9.row]

theorem normalize_realUnitX : NormalizeArray Real.sqrt realUnitX = ⟨1, 0, 0⟩ := by
  simp [NormalizeArray, Norm, realUnitX]

end RowLemmas

section RowClaims

variable {K : Type} [LinearOrderedField K]

/-- C4, amended: for a positive threshold, `Make3x3MatrixUnitary` leaves row `i` as it is when
its norm is strictly below ten times the threshold, and otherwise writes the row divided by its
norm; in exact arithmetic, with an exact square root, that row has Euclidean norm exactly 1. -/
theorem C4_unitarize_row (odMin : K) (sqrt : K → K) (M out : Mat9 K) (i : Fin 3)
    (hpos : 0 < odMin) (hs : IsSqrt sqrt) :
    (Norm sqrt (M.row i) < 10 * odMin →
      (Make3x3MatrixUnitary odMin sqrt M out).row i = M.row i) ∧
    (¬ Norm sqrt (M.row i) < 10 * odMin →
      (Make3x3MatrixUnitary odMin sqrt M out).row i
        = ⟨(M.row i).c0 / Norm sqrt (M.row i), (M.row i).c1 / Norm sqrt (M.row i),
           (M.row i).c2 / Norm sqrt (M.row i)⟩ ∧
      Norm sqrt ((Make3x3MatrixUnitary odMin sqrt M out).row i) = 1) := by
  rw [Make3x3MatrixUnitary_row]
  constructor
  · intro h
    simp [unitaryAddRow, h]
  · intro h
    have hrow : unitaryAddRow odMin (Norm sqrt (M.row i)) (M.row i)
        = ⟨(M.row i).c0 / Norm sqrt (M.row i), (M.row i).c1 / Norm sqrt (M.row i),
           (M.row i).c2 / Norm sqrt (M.row i)⟩ := by
      simp [unitaryAddRow, h]
    refine ⟨hrow, ?_⟩
    rw [hrow]
    have hn : 0 < Norm sqrt (M.row i) := by
      have : 10 * odMin ≤ Norm sqrt (M.row i) := not_lt.mp h
      linarith
    have hsq : Norm sqrt (M.row i) * Norm sqrt (M.row i)
        = (M.row i).c0 ^ 2 + (M.row i).c1 ^ 2 + (M.row i).c2 ^ 2 :=
      (hs _ (sumSq_nonneg (M.row i))).2
    have hone : ((M.row i).c0 / Norm sqrt (M.row i)) ^ 2 + ((M.row i).c1 / Norm sqrt (M.row i)) ^ 2
        + ((M.row i).c2 / Norm sqrt (M.row i)) ^ 2 = 1 := by
      have hne : Norm sqrt (M.row i) ≠ 0 := ne_of_gt hn
      field_simp
      rw [← hsq]
      ring
    show sqrt _ = 1
    rw [hone]
    exact hs.sqrt_one

/-- C4, amended, at the first row `(3, 4, 0)` of `realMat345`, whose norm 5 is not below ten times the
threshold `1 / 1000000`: the output row is `(3/5, 4/5, 0/5)` and has norm 1. -/
theorem C4_unitarize_row_witness :
    ¬ Norm Real.sqrt (realMat345.row 0) < 10 * (1 / 1000000 : ℝ) ∧
    (Make3x3MatrixUnitary (1 / 1000000 : ℝ) Real.sqrt realMat345 realMat345).row 0
        = ⟨(realMat345.row 0).c0 / Norm Real.sqrt (realMat345.row 0),
           (realMat345.row 0).c1 / Norm Real.sqrt (realMat345.row 0),
           (realMat345.row 0).c2 / Norm Real.sqrt (realMat345.row 0)⟩ ∧
    Norm Real.sqrt
        ((Make3x3MatrixUnitary (1 / 1000000 : ℝ) Real.sqrt realMat345 realMat345).row 0) = 1 :=
  have hbig : ¬ Norm Real.sqrt (realMat345.row 0) < 10 * (1 / 1000000 : ℝ) := by
    rw [norm_realMat345_row0]; norm_num
  ⟨hbig,
   (C4_unitarize_row (1 / 1000000 : ℝ) Real.sqrt realMat345 realMat345 0 (by norm_num)
      isSqrt_real).2 hbig⟩

/-- C5, as stated, fails: the second row of `realMat345` is all-zero, so it is not a row with
near-zero sum and positive norm and the claim has it unchanged; the code replaces it by the
normalized replacement vector `(1, 0, 0)`. -/
theorem C5_zero_row_is_replaced :
    ¬ (abs (accumulate (realMat345.row 1)) < (1 / 1000000 : ℝ)
        ∧ 0 < Norm Real.sqrt (realMat345.row 1)) ∧
    (ConvertZeroRowsToUnitary (1 / 1000000 : ℝ) Real.sqrt realMat345 realMat345 realUnitX).row 1
      = ⟨1, 0, 0⟩ ∧
    (ConvertZeroRowsToUnitary (1 / 1000000 : ℝ) Real.sqrt realMat345 realMat345 realUnitX).row 1
      ≠ realMat345.row 1 := by
  have hrow : (ConvertZeroRowsToUnitary (1 / 1000000 : ℝ) Real.sqrt realMat345 realMat345
      realUnitX).row 1 = ⟨1, 0, 0⟩ := by
    rw [ConvertZeroRowsToUnitary_row, norm_realMat345_row1, normalize_realUnitX]
    norm_num
  refine ⟨?_, hrow, ?_⟩
  · rw [norm_realMat345_row1]
    simp
  · rw [hrow]
    simp [realMat345, Mat9.row]

/-- C5, amended: for every matrix, replacement vector and row index, the output row of
`ConvertZeroRowsToUnitary` is the unit-normalized replacement vector when the input row's
Euclidean norm is strictly below ten times the threshold, and the input row otherwise. -/
theorem C5_repair_decides_by_norm (odMin : K) (sqrt : K → K) (M out : Mat9 K)
    (repl : Row3 K) (i : Fin 3) :
    (ConvertZeroRowsToUnitary odMin sqrt M out repl).row i
      = if Norm sqrt (M.row i) < 10 * odMin then NormalizeArray sqrt repl else M.row i :=
  ConvertZeroRowsToUnitary_row odMin sqrt M out repl i

/-- C6, as stated, fails: the second row of `realMat345` is `(0, 0, 0)`, and both overloads
write a non-zero row there. -/
theorem C6_zero_row_not_kept :
    realMat345.row 1 = ⟨0, 0, 0⟩ ∧
    (ConvertZeroRowsToUnitaryDefault (1 / 1000000 : ℝ) Real.sqrt realMat345 realMat345).row 1
      ≠ ⟨0, 0, 0⟩ ∧
    (ConvertZeroRowsToUnitary (1 / 1000000 : ℝ) Real.sqrt realMat345 realMat345 realUnitX).row 1
      ≠ ⟨0, 0, 0⟩ := by
  refine ⟨rfl, ?_, ?_⟩
  · rw [ConvertZeroRowsToUnitaryDefault, ConvertZeroRowsToUnitary_row, norm_realMat345_row1]
    have h3 : (0 : ℝ) < Real.sqrt (1 ^ 2 + 1 ^ 2 + 1 ^ 2) := Real.sqrt_pos.mpr (by norm_num)
    intro h
    rw [if_pos (by norm_num)] at h
    have hc := congrArg Row3.c0 h
    simp only [NormalizeArray, Norm] at hc
    exact absurd hc (ne_of_gt (div_pos one_pos h3))
  · rw [ConvertZeroRowsToUnitary_row, norm_realMat345_row1, normalize_realUnitX]
    norm_num

/-- C6, amended: for a positive threshold, both overloads replace an all-zero row: the output
row is the unit-normalized replacement vector, which for the default overload is the
normalized `(1, 1, 1)`. -/
theorem C6_zero_row_is_replaced (odMin : K) (sqrt : K → K) (M out : Mat9 K) (repl : Row3 K)
    (i : Fin 3) (hpos : 0 < odMin) (hs : IsSqrt sqrt) (hrow : M.row i = ⟨0, 0, 0⟩) :
    (ConvertZeroRowsToUnitary odMin sqrt M out repl).row i = NormalizeArray sqrt repl ∧
    (ConvertZeroRowsToUnitaryDefault odMin sqrt M out).row i
      = NormalizeArray sqrt ⟨1, 1, 1⟩ := by
  have hnorm : Norm sqrt (M.row i) < 10 * odMin := by
    rw [hrow]
    simp only [Norm]
    norm_num
    rw [hs.sqrt_zero]
    linarith
  constructor
  · rw [ConvertZeroRowsToUnitary_row, if_pos hnorm]
  · rw [ConvertZeroRowsToUnitaryDefault, ConvertZeroRowsToUnitary_row, if_pos hnorm]

/-- C6, amended, at the all-zero second row of `realMat345` with threshold `1 / 1000000`. -/
theorem C6_zero_row_is_replaced_witness :
    (ConvertZeroRowsToUnitary (1 / 1000000 : ℝ) Real.sqrt realMat345 realMat345 realUnitX).row 1
      = NormalizeArray Real.sqrt realUnitX ∧
    (ConvertZeroRowsToUnitaryDefault (1 / 1000000 : ℝ) Real.sqrt realMat345 realMat345).row 1
      = NormalizeArray Real.sqrt ⟨1, 1, 1⟩ :=
  C6_zero_row_is_replaced (1 / 1000000 : ℝ) Real.sqrt realMat345 realMat345 realUnitX 1
    (by norm_num) isSqrt_real rfl

/-- C7, as stated, fails: with the replacement `(1, 0, 0)`, whose component sum 1 is not near
zero, the all-zero second row of `realMat345` is not flagged by `RowSumZeroCheck`, and yet the
repair alters it. -/
theorem C7_unflagged_row_is_altered :
    (1 / 1000000 : ℝ) ≤ abs (accumulate realUnitX) ∧
    (RowSumZeroCheck (1 / 1000000 : ℝ) Real.sqrt realMat345).get 1 = false ∧
    (ConvertZeroRowsToUnitary (1 / 1000000 : ℝ) Real.sqrt realMat345 realMat345 realUnitX).row 1
      ≠ realMat345.row 1 := by
  refine ⟨?_, ?_, ?_⟩
  · norm_num [accumulate, realUnitX]
  · rw [RowSumZeroCheck_get]
    simp [rowCheckVal, norm_realMat345_row1]
  · rw [ConvertZeroRowsToUnitary_row, norm_realMat345_row1, normalize_realUnitX]
    norm_num [realMat345, Mat9.row]

/-- C7, amended: a row that the repair alters has a norm strictly below ten times the
threshold; and a row flagged by `RowSumZeroCheck` whose norm is strictly below ten times the
threshold is altered by the repair, provided the component sum of the unit-normalized
replacement vector is not near zero. -/
theorem C7_flag_and_repair (odMin : K) (sqrt : K → K) (M out : Mat9 K) (repl : Row3 K)
    (i : Fin 3) :
    ((ConvertZeroRowsToUnitary odMin sqrt M out repl).row i ≠ M.row i →
      Norm sqrt (M.row i) < 10 * odMin) ∧
    ((RowSumZeroCheck odMin sqrt M).get i = true →
      Norm sqrt (M.row i) < 10 * odMin →
      odMin ≤ abs (accumulate (NormalizeArray sqrt repl)) →
      (ConvertZeroRowsToUnitary odMin sqrt M out repl).row i ≠ M.row i) := by
  rw [ConvertZeroRowsToUnitary_row, RowSumZeroCheck_get]
  constructor
  · intro hne
    by_contra hnot
    rw [if_neg hnot] at hne
    exact hne rfl
  · intro hflag hsmall hsum heq
    rw [if_pos hsmall] at heq
    have hlt : abs (accumulate (M.row i)) < odMin := by
      simp only [rowCheckVal, Bool.and_eq_true, decide_eq_true_eq] at hflag
      exact hflag.1
    rw [heq] at hsum
    exact absurd hlt (not_lt.mpr hsum)

/-- C7, amended, at the first row `(1, -1, 0)` of `realMatCancel` with threshold 1: the row
is flagged, its norm is below 10, the replacement `(1, 0, 0)` has sum 1, and the repair
alters the row. -/
theorem C7_flag_and_repair_witness :
    (RowSumZeroCheck (1 : ℝ) Real.sqrt realMatCancel).get 0 = true ∧
    (ConvertZeroRowsToUnitary (1 : ℝ) Real.sqrt realMatCancel realMatCancel realUnitX).row 0
      ≠ realMatCancel.row 0 :=
  have hnorm : Norm Real.sqrt (realMatCancel.row 0) = Real.sqrt 2 := by
    simp only [Norm, realMatCancel, Mat9.row]
    norm_num
  have hflag : (RowSumZeroCheck (1 : ℝ) Real.sqrt realMatCancel).get 0 = true := by
    rw [RowSumZeroCheck_get]
    simp only [rowCheckVal, hnorm]
    simp [accumulate, realMatCancel, Mat9.row]
  have hsmall : Norm Real.sqrt (realMatCancel.row 0) < 10 * (1 : ℝ) := by
    rw [hnorm, Real.sqrt_lt' (by norm_num)]
    norm_num
  have hsum : (1 : ℝ) ≤ abs (accumulate (NormalizeArray Real.sqrt realUnitX)) := by
    rw [normalize_realUnitX]
    norm_num [accumulate]
  ⟨hflag,
   (C7_flag_and_repair (1 : ℝ) Real.sqrt realMatCancel realMatCancel realUnitX 0).2
      hflag hsmall hsum⟩

/-- C8: the flag that `RowSumZeroCheck` returns for row `i` is true exactly when the absolute
value of the row's component sum is strictly below the threshold and the row's Euclidean
norm is strictly positive. -/
theorem C8_flag_iff (odMin : K) (sqrt : K → K) (M : Mat9 K) (i : Fin 3) :
    (RowSumZeroCheck odMin sqrt M).get i = true ↔
      abs ((M.row i).c0 + (M.row i).c1 + (M.row i).c2) < odMin ∧
        0 < Norm sqrt (M.row i) := by
  rw [RowSumZeroCheck_get]
  simp [rowCheckVal, accumulate]

end RowClaims

/-! ## Sorting of the stain vectors -/

section SortLemmas

variable {α : Type}

/-- What the insertion sort does on three elements, comparison by comparison. -/
theorem std_sort_three (comp : α → α → Bool) (a b c : α) :
    std_sort comp [a, b, c] =
      if comp b a then
        (if comp c b then [c, b, a] else if comp c a then [b, c, a] else [b, a, c])
      else
        (if comp c a then [c, a, b] else if comp c b then [a, c, b] else [a, b, c]) := by
  simp only [std_sort, List.foldl, insertion_step]
  by_cases hba : comp b a = true <;> by_cases hcb : comp c b = true <;>
    by_cases hca : comp c a = true <;>
    simp [hba, hcb, hca, unguarded_linear_insert]

theorem std_sort_three_length (comp : α → α → Bool) (a b c : α) :
    ∃ x y z, std_sort comp [a, b, c] = [x, y, z] := by
  rw [std_sort_three]
  split_ifs <;> exact ⟨_, _, _, rfl⟩

/-- With a comparator that never puts a null element first and always puts a non-null element
before a null one, the sorted three elements have their null elements last. -/
theorem std_sort_three_nulls_last (comp : α → α → Bool) (N : α → Prop)
    (h1 : ∀ a b, comp a b = true → ¬ N a) (h2 : ∀ a b, ¬ N a → N b → comp a b = true)
    (a b c x y z : α) (h : std_sort comp [a, b, c] = [x, y, z]) :
    (N x → N y) ∧ (N y → N z) := by
  rw [std_sort_three] at h
  have hab := h1 a b
  have hac := h1 a c
  have hba := h1 b a
  have hbc := h1 b c
  have hca := h1 c a
  have hcb := h1 c b
  have kab := h2 a b
  have kac := h2 a c
  have kba := h2 b a
  have kbc := h2 b c
  have kca := h2 c a
  have kcb := h2 c b
  split_ifs at h with p q r <;>
    simp only [List.cons.injEq, and_true] at h <;>
    obtain ⟨rfl, rfl, rfl⟩ := h <;>
    constructor <;> intro hn <;> by_contra hm <;> simp_all

/-- With an asymmetric comparator that is transitive on the three elements, sorting the sorted
list again changes nothing. -/
theorem std_sort_three_idem (comp : α → α → Bool) (a b c : α)
    (hasym : ∀ x y, comp x y = true → comp y x = false)
    (hcba : comp c b = true → comp b a = true → comp c a = true)
    (hbca : comp b c = true → comp c a = true → comp b a = true) :
    ∀ x y z, std_sort comp [a, b, c] = [x, y, z] → std_sort comp [x, y, z] = [x, y, z] := by
  intro x y z h
  rw [std_sort_three] at h
  have sab := hasym a b
  have sac := hasym a c
  have sba := hasym b a
  have sbc := hasym b c
  have sca := hasym c a
  have scb := hasym c b
  rw [std_sort_three]
  split_ifs at h with p q r <;>
    simp only [List.cons.injEq, and_true] at h <;>
    obtain ⟨rfl, rfl, rfl⟩ := h <;>
    simp_all

end SortLemmas

section ComparatorLemmas

variable {K : Type} [LinearOrderedField K]

theorem inputRows_eq (M : Mat9 K) : inputRows M = [M.row 0, M.row 1, M.row 2] := rfl

theorem assignRows_row (x y z : Row3 K) (out : Mat9 K) :
    (assignRows [x, y, z] out).row 0 = x ∧ (assignRows [x, y, z] out).row 1 = y ∧
      (assignRows [x, y, z] out).row 2 = z :=
  ⟨rfl, rfl, rfl⟩

theorem inputRows_assignRows (x y z : Row3 K) (out : Mat9 K) :
    inputRows (assignRows [x, y, z] out) = [x, y, z] := rfl

theorem SortStainVectors_ascending (M out : Mat9 K) :
    SortStainVectors M out SortOrder.ASCENDING
      = assignRows (std_sort ascLambda (inputRows M)) out := by
  simp [SortStainVectors]

theorem SortStainVectors_descending (M out : Mat9 K) :
    SortStainVectors M out SortOrder.DESCENDING
      = assignRows (std_sort descLambda (inputRows M)) out := by
  simp [SortStainVectors, SortOrder.ASCENDING, SortOrder.DESCENDING]

theorem isNullRow_iff (r : Row3 K) : isNullRow r ↔ abs (r.c0 + r.c1 + r.c2) < 1 / 1000 := by
  simp [isNullRow, accumulate, prec]

theorem ascLambda_not_null (a b : Row3 K) (h : ascLambda a b = true) : ¬ isNullRow a := by
  intro hn
  have hn2 : abs (accumulate a) < (prec : K) := hn
  simp [ascLambda, hn2] at h

theorem ascLambda_of_null (a b : Row3 K) (ha : ¬ isNullRow a) (hb : isNullRow b) :
    ascLambda a b = true := by
  have ha2 : ¬ abs (accumulate a) < (prec : K) := ha
  have hb2 : abs (accumulate b) < (prec : K) := hb
  simp [ascLambda, ha2, hb2]

theorem descLambda_not_null (a b : Row3 K) (h : descLambda a b = true) : ¬ isNullRow a := by
  intro hn
  have hn2 : abs (accumulate a) < (prec : K) := hn
  simp [descLambda, hn2] at h

theorem descLambda_of_null (a b : Row3 K) (ha : ¬ isNullRow a) (hb : isNullRow b) :
    descLambda a b = true := by
  have ha2 : ¬ abs (accumulate a) < (prec : K) := ha
  have hb2 : abs (accumulate b) < (prec : K) := hb
  simp [descLambda, ha2, hb2]

/-- The ascending comparator never holds in both directions. -/
theorem ascLambda_asymm (a b : Row3 K) (h : ascLambda a b = true) : ascLambda b a = false := by
  by_cases hb : abs (accumulate b) < (prec : K)
  · simp [ascLambda, hb]
  · by_cases ha : abs (accumulate a) < (prec : K)
    · simp [ascLambda, ha] at h
    · simp only [ascLambda, ha, hb, if_false] at h ⊢
      rw [abs_sub_comm b.c0 a.c0, abs_sub_comm b.c1 a.c1]
      split_ifs at h ⊢ with h0 h1 <;>
        simp only [decide_eq_true_eq, decide_eq_false_iff_not, not_lt] at h ⊢ <;>
        exact le_of_lt h

/-- The sorted rows under a comparator with the two null-row properties: a null row is never
followed by a non-null row. -/
theorem sorted_rows_nulls_last (comp : Row3 K → Row3 K → Bool)
    (h1 : ∀ a b, comp a b = true → ¬ isNullRow a)
    (h2 : ∀ a b, ¬ isNullRow a → isNullRow b → comp a b = true)
    (M out : Mat9 K) (i j : Fin 3) (hij : i < j)
    (hi : isNullRow ((assignRows (std_sort comp (inputRows M)) out).row i)) :
    isNullRow ((assignRows (std_sort comp (inputRows M)) out).row j) := by
  obtain ⟨x, y, z, hxyz⟩ := std_sort_three_length comp (M.row 0) (M.row 1) (M.row 2)
  obtain ⟨hxy, hyz⟩ := std_sort_three_nulls_last comp isNullRow h1 h2 _ _ _ x y z hxyz
  rw [inputRows_eq, hxyz] at hi ⊢
  fin_cases i <;> fin_cases j <;> first
    | exact absurd hij (by decide)
    | exact hxy hi
    | exact hyz hi
    | exact hyz (hxy hi)

theorem sort_twoNullMat :
    SortStainVectors twoNullMat Mat9.zero SortOrder.ASCENDING
      = ⟨1, 1, 1, 0, 0, 0, 0, 0, 0⟩ := by
  rw [SortStainVectors_ascending, inputRows_eq, std_sort_three]
  norm_num [ascLambda, accumulate, prec, assignRows, twoNullMat, Mat9.row]

theorem sort_cycleMat :
    SortStainVectors cycleMat Mat9.zero SortOrder.ASCENDING
      = ⟨16 / 10000, 1, 0, 8 / 10000, 3, 0, 0, 5, 0⟩ := by
  rw [SortStainVectors_ascending, inputRows_eq, std_sort_three]
  norm_num [ascLambda, accumulate, prec, assignRows, cycleMat, Mat9.row, abs_lt, lt_abs]

theorem sort_sort_cycleMat :
    SortStainVectors (⟨16 / 10000, 1, 0, 8 / 10000, 3, 0, 0, 5, 0⟩ : Mat9 ℚ) Mat9.zero
        SortOrder.ASCENDING
      = ⟨0, 5, 0, 16 / 10000, 1, 0, 8 / 10000, 3, 0⟩ := by
  rw [SortStainVectors_ascending, inputRows_eq, std_sort_three]
  norm_num [ascLambda, accumulate, prec, assignRows, Mat9.row, abs_lt, lt_abs]

theorem sort_scenarioMat :
    SortStainVectors scenarioMat Mat9.zero SortOrder.ASCENDING
      = ⟨3 / 10, 6 / 10, 2 / 10, 7 / 10, 1 / 10, 1 / 10, 0, 0, 0⟩ := by
  rw [SortStainVectors_ascending, inputRows_eq, std_sort_three]
  norm_num [ascLambda, accumulate, prec, assignRows, scenarioMat, Mat9.row, abs_lt, lt_abs]

end ComparatorLemmas

section SortClaims

variable {K : Type} [LinearOrderedField K]

/-- After an ascending or a descending sort, a null output row is followed by null rows
only. -/
theorem sorted_nulls_last_of_order (M out : Mat9 K) (sortOrder : Int)
    (horder : sortOrder = SortOrder.ASCENDING ∨ sortOrder = SortOrder.DESCENDING)
    (i j : Fin 3) (hij : i < j)
    (hi : abs (((SortStainVectors M out sortOrder).row i).c0
      + ((SortStainVectors M out sortOrder).row i).c1
      + ((SortStainVectors M out sortOrder).row i).c2) < 1 / 1000) :
    abs (((SortStainVectors M out sortOrder).row j).c0
      + ((SortStainVectors M out sortOrder).row j).c1
      + ((SortStainVectors M out sortOrder).row j).c2) < 1 / 1000 := by
  rw [← isNullRow_iff] at hi ⊢
  rcases horder with h | h
  · rw [h, SortStainVectors_ascending] at hi ⊢
    exact sorted_rows_nulls_last ascLambda ascLambda_not_null ascLambda_of_null M out i j hij hi
  · rw [h, SortStainVectors_descending] at hi ⊢
    exact sorted_rows_nulls_last descLambda descLambda_not_null descLambda_of_null M out i j
      hij hi

/-- C10, as stated, fails: the ascending comparator is cyclic on the rows of `cycleMat`; one
ascending sort gives the rows `c, b, a`, and sorting that result again gives `a, c, b`. -/
theorem C10_second_sort_differs :
    SortStainVectors cycleMat Mat9.zero SortOrder.ASCENDING
      = ⟨16 / 10000, 1, 0, 8 / 10000, 3, 0, 0, 5, 0⟩ ∧
    SortStainVectors (SortStainVectors cycleMat Mat9.zero SortOrder.ASCENDING) Mat9.zero
        SortOrder.ASCENDING
      = ⟨0, 5, 0, 16 / 10000, 1, 0, 8 / 10000, 3, 0⟩ ∧
    SortStainVectors (SortStainVectors cycleMat Mat9.zero SortOrder.ASCENDING) Mat9.zero
        SortOrder.ASCENDING
      ≠ SortStainVectors cycleMat Mat9.zero SortOrder.ASCENDING := by
  refine ⟨sort_cycleMat, ?_, ?_⟩
  · rw [sort_cycleMat, sort_sort_cycleMat]
  · rw [sort_cycleMat, sort_sort_cycleMat]
    norm_num

/-- C10, amended: on every matrix on whose three rows the ascending comparator is transitive,
the ascending sort is idempotent: sorting the result again returns the same matrix. -/
theorem C10_ascending_idempotent_of_transitive (M out1 out2 : Mat9 K)
    (htrans : ∀ x y z : Fin 3, ascLambda (M.row x) (M.row y) = true →
      ascLambda (M.row y) (M.row z) = true → ascLambda (M.row x) (M.row z) = true) :
    SortStainVectors (SortStainVectors M out1 SortOrder.ASCENDING) out2 SortOrder.ASCENDING
      = SortStainVectors M out1 SortOrder.ASCENDING := by
  obtain ⟨x, y, z, hxyz⟩ := std_sort_three_length ascLambda (M.row 0) (M.row 1) (M.row 2)
  have hidem : std_sort ascLambda [x, y, z] = [x, y, z] :=
    std_sort_three_idem ascLambda (M.row 0) (M.row 1) (M.row 2) ascLambda_asymm
      (htrans 2 1 0) (htrans 1 2 0) x y z hxyz
  rw [SortStainVectors_ascending, SortStainVectors_ascending, inputRows_eq M, hxyz,
    inputRows_assignRows, hidem]
  rfl

/-- C10, amended, at the spec's scenario matrix, on whose rows the comparator is transitive. -/
theorem C10_ascending_idempotent_of_transitive_witness :
    SortStainVectors (SortStainVectors scenarioMat Mat9.zero SortOrder.ASCENDING) Mat9.zero
        SortOrder.ASCENDING
      = SortStainVectors scenarioMat Mat9.zero SortOrder.ASCENDING :=
  C10_ascending_idempotent_of_transitive scenarioMat Mat9.zero Mat9.zero (by
    intro x y z
    fin_cases x <;> fin_cases y <;> fin_cases z <;>
      norm_num [ascLambda, accumulate, prec, scenarioMat, Mat9.row, abs_lt, lt_abs])

end SortClaims

section StrictWeakOrder

variable {K : Type} [LinearOrderedField K]

theorem ascLambda_irrefl (a : Row3 K) : ascLambda a a = false := by
  by_cases ha : abs (accumulate a) < (prec : K)
  · simp [ascLambda, ha]
  · have hp : ¬ (0 : K) > prec := by simp [prec]
    simp [ascLambda, ha, prec]

/-- On two non-null rows that are apart in the first component, the ascending comparator is
the order of the first components. -/
theorem ascLambda_of_apart (a b : Row3 K) (ha : ¬ isNullRow a) (hb : ¬ isNullRow b)
    (h : abs (a.c0 - b.c0) > prec) : ascLambda a b = true ↔ a.c0 < b.c0 := by
  have ha2 : ¬ abs (accumulate a) < (prec : K) := ha
  have hb2 : ¬ abs (accumulate b) < (prec : K) := hb
  simp [ascLambda, ha2, hb2, h]

/-- Two rows that are apart in the first component and incomparable are both null. -/
theorem null_of_incomparable (a b : Row3 K) (hab : firstApart a b)
    (h1 : ascLambda a b = false) (h2 : ascLambda b a = false) :
    isNullRow a ∧ isNullRow b := by
  by_cases ha : isNullRow a
  · by_cases hb : isNullRow b
    · exact ⟨ha, hb⟩
    · rw [ascLambda_of_null b a hb ha] at h2
      exact absurd h2 (by simp)
  · by_cases hb : isNullRow b
    · rw [ascLambda_of_null a b ha hb] at h1
      exact absurd h1 (by simp)
    · exfalso
      have hd := hab ha hb
      have hd2 : abs (b.c0 - a.c0) > prec := by rw [abs_sub_comm]; exact hd
      have n1 : ¬ a.c0 < b.c0 := fun h =>
        absurd ((ascLambda_of_apart a b ha hb hd).mpr h) (by simp [h1])
      have n2 : ¬ b.c0 < a.c0 := fun h =>
        absurd ((ascLambda_of_apart b a hb ha hd2).mpr h) (by simp [h2])
      have heq : a.c0 = b.c0 := le_antisymm (not_lt.mp n2) (not_lt.mp n1)
      rw [heq, sub_self, abs_zero] at hd
      have hp : (0 : K) < prec := by simp [prec]
      exact absurd hd (not_lt.mpr (le_of_lt hp))

theorem ascLambda_trans_of_apart (a b c : Row3 K) (hac : firstApart a c)
    (hab : firstApart a b) (hbc : firstApart b c)
    (h1 : ascLambda a b = true) (h2 : ascLambda b c = true) : ascLambda a c = true := by
  have ha : ¬ isNullRow a := ascLambda_not_null a b h1
  have hb : ¬ isNullRow b := ascLambda_not_null b c h2
  by_cases hc : isNullRow c
  · exact ascLambda_of_null a c ha hc
  · have l1 : a.c0 < b.c0 := (ascLambda_of_apart a b ha hb (hab ha hb)).mp h1
    have l2 : b.c0 < c.c0 := (ascLambda_of_apart b c hb hc (hbc hb hc)).mp h2
    exact (ascLambda_of_apart a c ha hc (hac ha hc)).mpr (lt_trans l1 l2)

end StrictWeakOrder

section OrderClaims

variable {K : Type} [LinearOrderedField K]

/-- C11, as stated, fails: on the rows `a`, `b`, `c` of `cycleMat` the ascending comparator
puts `c` before `b` and `b` before `a`, but not `c` before `a`: it is not transitive. -/
theorem C11_ascending_not_transitive :
    ascLambda (cycleMat.row 2) (cycleMat.row 1) = true ∧
    ascLambda (cycleMat.row 1) (cycleMat.row 0) = true ∧
    ascLambda (cycleMat.row 2) (cycleMat.row 0) = false := by
  refine ⟨?_, ?_, ?_⟩ <;>
    norm_num [ascLambda, accumulate, prec, cycleMat, Mat9.row, abs_lt, lt_abs]

/-- C11, amended: the ascending comparator is irreflexive and asymmetric on all rows; and on
three rows `a`, `b`, `c` of which every two non-null ones differ in the first component by
more than `1e-3`, it is transitive and its incomparability relation is transitive. -/
theorem C11_ascending_order_properties (a b c : Row3 K) :
    ascLambda a a = false ∧
    (ascLambda a b = true → ascLambda b a = false) ∧
    (firstApart a b → firstApart b c → firstApart a c →
      (ascLambda a b = true → ascLambda b c = true → ascLambda a c = true) ∧
      (ascLambda a b = false ∧ ascLambda b a = false →
        ascLambda b c = false ∧ ascLambda c b = false →
        ascLambda a c = false ∧ ascLambda c a = false)) := by
  refine ⟨ascLambda_irrefl a, ascLambda_asymm a b, ?_⟩
  intro hab hbc hac
  refine ⟨ascLambda_trans_of_apart a b c hac hab hbc, ?_⟩
  intro i1 i2
  have na := (null_of_incomparable a b hab i1.1 i1.2).1
  have nc := (null_of_incomparable b c hbc i2.1 i2.2).2
  constructor
  · by_contra h
    exact ascLambda_not_null a c (by simpa using h) na
  · by_contra h
    exact ascLambda_not_null c a (by simpa using h) nc

/-- C11, amended, at the three rows of the spec's scenario: the rows are apart in the first
component, `(0.3, 0.6, 0.2)` is before `(0.7, 0.1, 0.1)`, that before the null row, and so
`(0.3, 0.6, 0.2)` is before the null row. -/
theorem C11_ascending_order_properties_witness :
    ascLambda (scenarioMat.row 1) (scenarioMat.row 0) = true :=
  ((C11_ascending_order_properties (scenarioMat.row 1) (scenarioMat.row 2)
      (scenarioMat.row 0)).2.2
    (by intro _ _; norm_num [prec, scenarioMat, Mat9.row, abs_lt, lt_abs])
    (by intro _ h; exact absurd (by norm_num [isNullRow, accumulate, prec, scenarioMat,
          Mat9.row]) h)
    (by intro _ h; exact absurd (by norm_num [isNullRow, accumulate, prec, scenarioMat,
          Mat9.row]) h)).1
    (by norm_num [ascLambda, accumulate, prec, scenarioMat, Mat9.row, abs_lt, lt_abs])
    (by norm_num [ascLambda, accumulate, prec, scenarioMat, Mat9.row, abs_lt, lt_abs])

end OrderClaims

section SortPermutation

variable {α : Type}

theorem unguarded_linear_insert_perm (comp : α → α → Bool) (val : α) (l : List α) :
    List.Perm (unguarded_linear_insert comp val l) (val :: l) := by
  induction l with
  | nil => exact List.Perm.refl _
  | cons next rest ih =>
    simp only [unguarded_linear_insert]
    split
    · exact (List.Perm.cons next ih).trans (List.Perm.swap val next rest)
    · exact List.Perm.refl _

theorem insertion_step_perm (comp : α → α → Bool) (sortedPrefix : List α) (val : α) :
    List.Perm (insertion_step comp sortedPrefix val) (val :: sortedPrefix) := by
  cases sortedPrefix with
  | nil => exact List.Perm.refl _
  | cons first rest =>
    simp only [insertion_step]
    split
    · exact List.Perm.refl _
    · exact (List.reverse_perm _).trans
        ((unguarded_linear_insert_perm comp val _).trans
          (List.Perm.cons val (List.reverse_perm _)))

theorem foldl_insertion_step_perm (comp : α → α → Bool) (xs : List α) :
    ∀ acc : List α, List.Perm (xs.foldl (insertion_step comp) acc) (acc ++ xs) := by
  induction xs with
  | nil => intro acc; simp
  | cons x xs ih =>
    intro acc
    simp only [List.foldl]
    exact (ih _).trans
      ((List.Perm.append_right xs (insertion_step_perm comp acc x)).trans
        (List.perm_middle.symm))

/-- The insertion sort returns a permutation of its input, whatever the comparator. -/
theorem std_sort_perm (comp : α → α → Bool) (l : List α) : List.Perm (std_sort comp l) l := by
  cases l with
  | nil => exact List.Perm.refl _
  | cons x xs => exact foldl_insertion_step_perm comp xs [x]

/-- A relation that holds between any two of the three inputs at different positions holds
between the sorted elements, earlier to later. -/
theorem std_sort_three_pairs (comp : α → α → Bool) (R : α → α → Prop) (a b c : α)
    (hab : R a b) (hba : R b a) (hac : R a c) (hca : R c a) (hbc : R b c) (hcb : R c b)
    (x y z : α) (h : std_sort comp [a, b, c] = [x, y, z]) : R x y ∧ R y z ∧ R x z := by
  rw [std_sort_three] at h
  split_ifs at h <;>
    simp only [List.cons.injEq, and_true] at h <;>
    obtain ⟨rfl, rfl, rfl⟩ := h <;>
    exact ⟨by assumption, by assumption, by assumption⟩

/-- With an asymmetric comparator that is transitive on the three elements, no sorted element
compares below an earlier one. -/
theorem std_sort_three_sorted (comp : α → α → Bool) (a b c : α)
    (hasym : ∀ x y, comp x y = true → comp y x = false)
    (hcba : comp c b = true → comp b a = true → comp c a = true)
    (hbca : comp b c = true → comp c a = true → comp b a = true)
    (x y z : α) (h : std_sort comp [a, b, c] = [x, y, z]) :
    comp y x = false ∧ comp z y = false ∧ comp z x = false := by
  rw [std_sort_three] at h
  have sab := hasym a b
  have sac := hasym a c
  have sba := hasym b a
  have sbc := hasym b c
  have sca := hasym c a
  have scb := hasym c b
  split_ifs at h with p q r <;>
    simp only [List.cons.injEq, and_true] at h <;>
    obtain ⟨rfl, rfl, rfl⟩ := h <;>
    simp_all

end SortPermutation

section AscendingOrder

variable {K : Type} [LinearOrderedField K]

/-- When row `v` does not compare below row `u` and the two are apart in the first component,
`u` may stand before `v`: a null `u` forces a null `v`, and a non-null `v` has the larger
first component. -/
theorem ordered_of_not_below (u v : Row3 K) (hap : firstApart u v)
    (h : ascLambda v u = false) :
    (isNullRow u → isNullRow v) ∧ (¬ isNullRow v → u.c0 < v.c0) := by
  have hnull : isNullRow u → isNullRow v := by
    intro hu
    by_contra hv
    rw [ascLambda_of_null v u hv hu] at h
    exact absurd h (by simp)
  refine ⟨hnull, ?_⟩
  intro hv
  have hu : ¬ isNullRow u := fun hu => hv (hnull hu)
  have hd := hap hu hv
  have hd2 : abs (v.c0 - u.c0) > prec := by rw [abs_sub_comm]; exact hd
  have hnot : ¬ v.c0 < u.c0 := fun hlt =>
    absurd ((ascLambda_of_apart v u hv hu hd2).mpr hlt) (by simp [h])
  rcases lt_or_eq_of_le (not_lt.mp hnot) with hlt | heq
  · exact hlt
  · exfalso
    rw [heq, sub_self, abs_zero] at hd
    have hp : (0 : K) < prec := by simp [prec]
    exact absurd hd (not_lt.mpr (le_of_lt hp))

/-- The rows of a matrix, apart in the first component, after the ascending sort. -/
theorem ascending_sorted_of_apart (M out : Mat9 K)
    (hapart : ∀ i j : Fin 3, i ≠ j → firstApart (M.row i) (M.row j)) (i j : Fin 3)
    (hij : i < j) :
    (isNullRow ((SortStainVectors M out SortOrder.ASCENDING).row i) →
      isNullRow ((SortStainVectors M out SortOrder.ASCENDING).row j)) ∧
    (¬ isNullRow ((SortStainVectors M out SortOrder.ASCENDING).row j) →
      ((SortStainVectors M out SortOrder.ASCENDING).row i).c0
        < ((SortStainVectors M out SortOrder.ASCENDING).row j).c0) := by
  obtain ⟨x, y, z, hxyz⟩ := std_sort_three_length ascLambda (M.row 0) (M.row 1) (M.row 2)
  have h01 := hapart 0 1 (by decide)
  have h10 := hapart 1 0 (by decide)
  have h02 := hapart 0 2 (by decide)
  have h20 := hapart 2 0 (by decide)
  have h12 := hapart 1 2 (by decide)
  have h21 := hapart 2 1 (by decide)
  obtain ⟨axy, ayz, axz⟩ := std_sort_three_pairs ascLambda firstApart _ _ _
    h01 h10 h02 h20 h12 h21 x y z hxyz
  obtain ⟨sxy, syz, sxz⟩ := std_sort_three_sorted ascLambda (M.row 0) (M.row 1) (M.row 2)
    ascLambda_asymm
    (ascLambda_trans_of_apart (M.row 2) (M.row 1) (M.row 0) h20 h21 h10)
    (ascLambda_trans_of_apart (M.row 1) (M.row 2) (M.row 0) h10 h12 h20)
    x y z hxyz
  rw [SortStainVectors_ascending, inputRows_eq, hxyz]
  fin_cases i <;> fin_cases j <;> first
    | exact absurd hij (by decide)
    | exact ordered_of_not_below x y axy sxy
    | exact ordered_of_not_below y z ayz syz
    | exact ordered_of_not_below x z axz sxz

theorem SortStainVectors_rows_perm (M out : Mat9 K) (sortOrder : Int)
    (horder : sortOrder = SortOrder.ASCENDING ∨ sortOrder = SortOrder.DESCENDING) :
    List.Perm
      [(SortStainVectors M out sortOrder).row 0, (SortStainVectors M out sortOrder).row 1,
        (SortStainVectors M out sortOrder).row 2]
      [M.row 0, M.row 1, M.row 2] := by
  rcases horder with h | h
  · obtain ⟨x, y, z, hxyz⟩ := std_sort_three_length ascLambda (M.row 0) (M.row 1) (M.row 2)
    have hp := std_sort_perm ascLambda [M.row 0, M.row 1, M.row 2]
    rw [hxyz] at hp
    rw [h, SortStainVectors_ascending, inputRows_eq, hxyz]
    exact hp
  · obtain ⟨x, y, z, hxyz⟩ := std_sort_three_length descLambda (M.row 0) (M.row 1) (M.row 2)
    have hp := std_sort_perm descLambda [M.row 0, M.row 1, M.row 2]
    rw [hxyz] at hp
    rw [h, SortStainVectors_descending, inputRows_eq, hxyz]
    exact hp

theorem scenarioMat_apart (i j : Fin 3) (hij : i ≠ j) :
    firstApart (scenarioMat.row i) (scenarioMat.row j) := by
  fin_cases i <;> fin_cases j <;> first
    | exact absurd rfl hij
    | (intro h1 _
       have hn : isNullRow (scenarioMat.row 0) := by
         norm_num [isNullRow, accumulate, prec, scenarioMat, Mat9.row]
       exact absurd hn h1)
    | (intro _ h2
       have hn : isNullRow (scenarioMat.row 0) := by
         norm_num [isNullRow, accumulate, prec, scenarioMat, Mat9.row]
       exact absurd hn h2)
    | (intro _ _
       norm_num [prec, scenarioMat, Mat9.row, abs_lt, lt_abs])

end AscendingOrder

section AscendingClaims

variable {K : Type} [LinearOrderedField K]

/-- C12: on a matrix whose non-null rows differ pairwise in the first component by more than
`1e-3`, the ascending sort returns the rows of the matrix (as a permutation) with the null rows
last and the non-null rows in strictly increasing first component; and the rows
`(0,0,0), (0.3,0.6,0.2), (0.7,0.1,0.1)` come out as `(0.3,0.6,0.2), (0.7,0.1,0.1), (0,0,0)`. -/
theorem C12_ascending_by_first_component (M out : Mat9 K)
    (hapart : ∀ i j : Fin 3, i ≠ j → firstApart (M.row i) (M.row j)) :
    List.Perm
      [(SortStainVectors M out SortOrder.ASCENDING).row 0,
        (SortStainVectors M out SortOrder.ASCENDING).row 1,
        (SortStainVectors M out SortOrder.ASCENDING).row 2]
      [M.row 0, M.row 1, M.row 2] ∧
    (∀ i j : Fin 3, i < j →
      (isNullRow ((SortStainVectors M out SortOrder.ASCENDING).row i) →
        isNullRow ((SortStainVectors M out SortOrder.ASCENDING).row j)) ∧
      (¬ isNullRow ((SortStainVectors M out SortOrder.ASCENDING).row j) →
        ((SortStainVectors M out SortOrder.ASCENDING).row i).c0
          < ((SortStainVectors M out SortOrder.ASCENDING).row j).c0)) ∧
    SortStainVectors scenarioMat Mat9.zero SortOrder.ASCENDING
      = ⟨3 / 10, 6 / 10, 2 / 10, 7 / 10, 1 / 10, 1 / 10, 0, 0, 0⟩ :=
  ⟨SortStainVectors_rows_perm M out SortOrder.ASCENDING (Or.inl rfl),
   fun i j hij => ascending_sorted_of_apart M out hapart i j hij,
   sort_scenarioMat⟩

/-- C12 at the spec's scenario matrix: its rows are apart in the first component, and in the
sorted matrix the first component of row 0 is below that of row 1. -/
theorem C12_ascending_by_first_component_witness :
    ¬ isNullRow ((SortStainVectors scenarioMat Mat9.zero SortOrder.ASCENDING).row 1) ∧
    ((SortStainVectors scenarioMat Mat9.zero SortOrder.ASCENDING).row 0).c0
      < ((SortStainVectors scenarioMat Mat9.zero SortOrder.ASCENDING).row 1).c0 :=
  have hnn : ¬ isNullRow ((SortStainVectors scenarioMat Mat9.zero SortOrder.ASCENDING).row 1) := by
    rw [sort_scenarioMat]
    norm_num [isNullRow, accumulate, prec, Mat9.row, abs_lt]
  ⟨hnn, ((C12_ascending_by_first_component scenarioMat Mat9.zero scenarioMat_apart).2.1 0 1
    (by decide)).2 hnn⟩

/-- C20: for the orders ascending and descending, the three output rows of `SortStainVectors`
are a permutation of the three input rows. -/
theorem C20_sorted_rows_are_permutation (M out : Mat9 K) (sortOrder : Int)
    (horder : sortOrder = SortOrder.ASCENDING ∨ sortOrder = SortOrder.DESCENDING) :
    List.Perm
      [(SortStainVectors M out sortOrder).row 0, (SortStainVectors M out sortOrder).row 1,
        (SortStainVectors M out sortOrder).row 2]
      [M.row 0, M.row 1, M.row 2] :=
  SortStainVectors_rows_perm M out sortOrder horder

/-- C20 at the spec's scenario matrix, descending. -/
theorem C20_sorted_rows_are_permutation_witness :
    List.Perm
      [(SortStainVectors scenarioMat Mat9.zero SortOrder.DESCENDING).row 0,
        (SortStainVectors scenarioMat Mat9.zero SortOrder.DESCENDING).row 1,
        (SortStainVectors scenarioMat Mat9.zero SortOrder.DESCENDING).row 2]
      [scenarioMat.row 0, scenarioMat.row 1, scenarioMat.row 2] :=
  C20_sorted_rows_are_permutation scenarioMat Mat9.zero SortOrder.DESCENDING (Or.inr rfl)

end AscendingClaims

/-! ## Sort order dispatch, matrix-vector product, and the remaining row claims -/

section DispatchClaims

variable {K : Type} [LinearOrderedField K]

theorem SortStainVectors_other (M out : Mat9 K) (sortOrder : Int)
    (h1 : sortOrder ≠ SortOrder.ASCENDING) (h2 : sortOrder ≠ SortOrder.DESCENDING) :
    SortStainVectors M out sortOrder = out := by
  simp [SortStainVectors, h1, h2]

/-- C13, as stated, fails: the value 7 is none of the enum values, and the call with it
returns normally, the output array being what it was before. -/
theorem C13_invalid_order_returns_normally :
    (7 : Int) ≠ SortOrder.ASCENDING ∧ (7 : Int) ≠ SortOrder.DESCENDING ∧
    (7 : Int) ≠ SortOrder.NONE ∧
    SortStainVectorsOutcome scenarioMat identityMat 7 = Except.ok identityMat := by
  refine ⟨by decide, by decide, by decide, ?_⟩
  rw [SortStainVectorsOutcome, SortStainVectors_other _ _ _ (by decide) (by decide)]

/-- C13, amended: for every sort-order value that is neither ascending nor descending, the
value none and the values outside the enum alike, the call raises no error: it returns
normally and leaves the output array as it was. -/
theorem C13_other_order_is_silent (M out : Mat9 K) (sortOrder : Int)
    (h1 : sortOrder ≠ SortOrder.ASCENDING) (h2 : sortOrder ≠ SortOrder.DESCENDING) :
    SortStainVectorsOutcome M out sortOrder = Except.ok out := by
  rw [SortStainVectorsOutcome, SortStainVectors_other M out sortOrder h1 h2]

/-- C13, amended, at the sort-order value `-1`. -/
theorem C13_other_order_is_silent_witness :
    SortStainVectorsOutcome scenarioMat identityMat (-1) = Except.ok identityMat :=
  C13_other_order_is_silent scenarioMat identityMat (-1) (by decide) (by decide)

/-- C14: with the sort order none the call returns the output array as it was before the
call, all nine entries, for every input matrix. -/
theorem C14_none_leaves_output (M out : Mat9 K) :
    SortStainVectors M out SortOrder.NONE = out ∧
    (SortStainVectors M out SortOrder.NONE).e0 = out.e0 ∧
    (SortStainVectors M out SortOrder.NONE).e1 = out.e1 ∧
    (SortStainVectors M out SortOrder.NONE).e2 = out.e2 ∧
    (SortStainVectors M out SortOrder.NONE).e3 = out.e3 ∧
    (SortStainVectors M out SortOrder.NONE).e4 = out.e4 ∧
    (SortStainVectors M out SortOrder.NONE).e5 = out.e5 ∧
    (SortStainVectors M out SortOrder.NONE).e6 = out.e6 ∧
    (SortStainVectors M out SortOrder.NONE).e7 = out.e7 ∧
    (SortStainVectors M out SortOrder.NONE).e8 = out.e8 := by
  have h : SortStainVectors M out SortOrder.NONE = out :=
    SortStainVectors_other M out SortOrder.NONE (by decide) (by decide)
  rw [h]
  simp

/-- C15: `Multiply3x3MatrixAndVector` writes the row-major product
`output[i] = M[3i]*v[0] + M[3i+1]*v[1] + M[3i+2]*v[2]`, which is the product of the matrix
with the column vector; the result does not depend on the prior content of the output array;
and the identity matrix returns `v`. -/
theorem C15_matrix_vector_product (M : Mat9 K) (v out : Row3 K) :
    Multiply3x3MatrixAndVector M v out
      = ⟨M.e0 * v.c0 + M.e1 * v.c1 + M.e2 * v.c2,
         M.e3 * v.c0 + M.e4 * v.c1 + M.e5 * v.c2,
         M.e6 * v.c0 + M.e7 * v.c1 + M.e8 * v.c2⟩ ∧
    Matrix.mulVec (Mat9.toMatrix M) ![v.c0, v.c1, v.c2]
      = ![(Multiply3x3MatrixAndVector M v out).c0, (Multiply3x3MatrixAndVector M v out).c1,
          (Multiply3x3MatrixAndVector M v out).c2] ∧
    (∀ out2 : Row3 K, Multiply3x3MatrixAndVector M v out2 = Multiply3x3MatrixAndVector M v out) ∧
    Multiply3x3MatrixAndVector (Mat9.mk 1 0 0 0 1 0 0 0 1) v out = v := by
  refine ⟨rfl, ?_, fun _ => rfl, ?_⟩
  · ext i
    fin_cases i <;>
      simp [Matrix.mulVec, Matrix.dotProduct, Fin.sum_univ_three, Mat9.toMatrix,
        Multiply3x3MatrixAndVector, reshape]
  · simp [Multiply3x3MatrixAndVector, reshape]

end DispatchClaims

section ImplicitClaims

variable {K : Type} [LinearOrderedField K]

/-- C17: the repair decides by the row norm alone: the output row is the unit-normalized
replacement vector when the input row's norm is strictly below ten times the threshold, and
the input row otherwise. -/
theorem C17_repair_by_norm_threshold (odMin : K) (sqrt : K → K) (M out : Mat9 K)
    (repl : Row3 K) (i : Fin 3) :
    (Norm sqrt (M.row i) < 10 * odMin →
      (ConvertZeroRowsToUnitary odMin sqrt M out repl).row i = NormalizeArray sqrt repl) ∧
    (¬ Norm sqrt (M.row i) < 10 * odMin →
      (ConvertZeroRowsToUnitary odMin sqrt M out repl).row i = M.row i) := by
  rw [ConvertZeroRowsToUnitary_row]
  constructor
  · intro h
    rw [if_pos h]
  · intro h
    rw [if_neg h]

/-- C17 at `realMat345` with threshold `1 / 1000000`: the all-zero second row, of norm 0, is
replaced, and the first row, of norm 5, is kept. -/
theorem C17_repair_by_norm_threshold_witness :
    (ConvertZeroRowsToUnitary (1 / 1000000 : ℝ) Real.sqrt realMat345 realMat345 realUnitX).row 1
      = NormalizeArray Real.sqrt realUnitX ∧
    (ConvertZeroRowsToUnitary (1 / 1000000 : ℝ) Real.sqrt realMat345 realMat345 realUnitX).row 0
      = realMat345.row 0 :=
  ⟨(C17_repair_by_norm_threshold (1 / 1000000 : ℝ) Real.sqrt realMat345 realMat345
      realUnitX 1).1 (by rw [norm_realMat345_row1]; norm_num),
   (C17_repair_by_norm_threshold (1 / 1000000 : ℝ) Real.sqrt realMat345 realMat345
      realUnitX 0).2 (by rw [norm_realMat345_row0]; norm_num)⟩

/-- C18: on two non-null rows whose components 0 and 1 each differ by at most `1e-3`, the
descending comparator holds exactly when `a[2] >= b[2]`; and it holds between a non-null row
and itself. -/
theorem C18_descending_final_tie_break (a b : Row3 K) (ha : ¬ isNullRow a)
    (hb : ¬ isNullRow b) (h0 : abs (a.c0 - b.c0) ≤ 1 / 1000)
    (h1 : abs (a.c1 - b.c1) ≤ 1 / 1000) :
    (descLambda a b = true ↔ a.c2 ≥ b.c2) ∧ descLambda a a = true := by
  have ha2 : ¬ abs (accumulate a) < (prec : K) := ha
  have hb2 : ¬ abs (accumulate b) < (prec : K) := hb
  have h0n : ¬ abs (a.c0 - b.c0) > (prec : K) := by
    rw [prec]; exact not_lt.mpr h0
  have h1n : ¬ abs (a.c1 - b.c1) > (prec : K) := by
    rw [prec]; exact not_lt.mpr h1
  constructor
  · simp only [descLambda, ha2, hb2, h0n, h1n, if_false, decide_eq_true_eq]
  · have hz0 : ¬ abs (a.c0 - a.c0) > (prec : K) := by simp [prec]
    have hz1 : ¬ abs (a.c1 - a.c1) > (prec : K) := by simp [prec]
    simp only [descLambda, ha2, hz0, hz1, if_false, decide_eq_true_eq]
    exact le_refl _

/-- C18 at the row `(0.3, 0.6, 0.2)` of the spec's scenario, compared with itself. -/
theorem C18_descending_final_tie_break_witness :
    descLambda (scenarioMat.row 1) (scenarioMat.row 1) = true :=
  have hn : ¬ isNullRow (scenarioMat.row 1) := by
    norm_num [isNullRow, accumulate, prec, scenarioMat, Mat9.row, abs_lt]
  (C18_descending_final_tie_break (scenarioMat.row 1) (scenarioMat.row 1) hn hn
    (by norm_num) (by norm_num)).2

/-- C19: for a positive threshold and every matrix `M` with `|det M|` at or above it, the call
returns a matrix `R` whose transpose times `M` is the identity; `R` is the transpose of the
inverse of `M`. -/
theorem C19_transposed_output_times_input (odMin : K) (M out : Mat9 K) (hpos : 0 < odMin)
    (hge : odMin ≤ abs (Mat9.det M)) :
    ∃ R, Compute3x3MatrixInverse odMin M out = some R ∧
      (Mat9.toMatrix R).transpose * Mat9.toMatrix M = 1 ∧
      Mat9.toMatrix R = ((Mat9.toMatrix M)⁻¹).transpose := by
  have hne : Mat9.det M ≠ 0 := det_ne_zero_of_ge odMin M hpos hge
  obtain ⟨inv, hinv, hR⟩ := Compute3x3MatrixInverse_of_ge odMin M out hge hne
  have hmul : Mat9.toMatrix M * QMat.toMatrix inv = 1 := by
    rw [← toMatrix_reshape]
    exact inverse_mul _ _ hinv
  refine ⟨_, hR, ?_, ?_⟩
  · rw [toMatrix_flatten, toMatrix_transposed, Matrix.transpose_transpose]
    exact (Matrix.mul_eq_one_comm).mp hmul
  · rw [toMatrix_flatten, toMatrix_transposed, Matrix.inv_eq_right_inv hmul]

/-- C19 at the shear matrix with threshold `1 / 1000000`. -/
theorem C19_transposed_output_times_input_witness :
    ∃ R, Compute3x3MatrixInverse (1 / 1000000 : ℚ) shearMat Mat9.zero = some R ∧
      (Mat9.toMatrix R).transpose * Mat9.toMatrix shearMat = 1 ∧
      Mat9.toMatrix R = ((Mat9.toMatrix shearMat)⁻¹).transpose :=
  C19_transposed_output_times_input (1 / 1000000 : ℚ) shearMat Mat9.zero (by norm_num)
    (by norm_num [Mat9.det, determinant, reshape, shearMat])

end ImplicitClaims

/-! ## Pixel sub-sampling -/

section SubsampleClaims

variable {G ρ : Type}

theorem getD_cons_eraseIdx_perm (l : List ρ) :
    ∀ (i : Nat) (d : ρ), i < l.length → List.Perm (l.getD i d :: l.eraseIdx i) l := by
  induction l with
  | nil => intro i d h; exact absurd h (Nat.not_lt_zero i)
  | cons x xs ih =>
    intro i d h
    cases i with
    | zero => exact List.Perm.refl _
    | succ j =>
      have hj : j < xs.length := Nat.lt_of_succ_lt_succ h
      have hstep : List.Perm (xs.getD j d :: x :: xs.eraseIdx j) (x :: xs) :=
        (List.Perm.swap x (xs.getD j d) (xs.eraseIdx j)).trans (List.Perm.cons x (ih j d hj))
      simpa using hstep

/-- Selecting as many rows as there are returns a permutation of them. -/
theorem selectRows_all_perm (draw : G → Nat × G) :
    ∀ (k : Nat) (g : G) (pool : List ρ), k = pool.length →
      List.Perm (MacenkoHistogram.selectRows draw k g pool).1 pool := by
  intro k
  induction k with
  | zero =>
    intro g pool h
    have hnil : pool = [] := List.length_eq_zero.mp h.symm
    subst hnil
    exact List.Perm.refl _
  | succ k ih =>
    intro g pool h
    cases pool with
    | nil => exact absurd h (by simp)
    | cons p ps =>
      have hlt : (draw g).1 % (p :: ps).length < (p :: ps).length :=
        Nat.mod_lt _ (by simp)
      have hlen : k = ((p :: ps).eraseIdx ((draw g).1 % (p :: ps).length)).length := by
        rw [List.length_eraseIdx, if_pos hlt]
        simp only [List.length_cons] at h ⊢
        omega
      have hrest := ih (draw g).2 _ hlen
      simp only [MacenkoHistogram.selectRows]
      exact (List.Perm.cons _ hrest).trans (getD_cons_eraseIdx_perm (p :: ps) _ p hlt)

/-- C16: when `numberOfPixels` is at least the number `R` of source rows, the sub-sample has
exactly `R` rows and is a permutation of the source rows: every source row appears exactly
once, under either order policy. -/
theorem C16_subsample_covers_all_rows (draw : G → Nat × G) (shuffleAll : Bool) (m_rgen : G)
    (sourcePixels : List ρ) (numberOfPixels : Int)
    (h : numberOfPixels ≥ (sourcePixels.length : Int)) :
    (MacenkoHistogram.CreatePixelSubsample draw shuffleAll m_rgen sourcePixels
        numberOfPixels).1.length = sourcePixels.length ∧
    List.Perm
      (MacenkoHistogram.CreatePixelSubsample draw shuffleAll m_rgen sourcePixels
        numberOfPixels).1
      sourcePixels := by
  have hperm : List.Perm
      (MacenkoHistogram.CreatePixelSubsample draw shuffleAll m_rgen sourcePixels
        numberOfPixels).1 sourcePixels := by
    simp only [MacenkoHistogram.CreatePixelSubsample, h, if_true]
    cases shuffleAll with
    | false => exact List.Perm.refl _
    | true => exact selectRows_all_perm draw _ m_rgen sourcePixels rfl
  exact ⟨hperm.length_eq, hperm⟩

/-- C16 at three source pixels and `numberOfPixels = 5`, with the shuffling policy. -/
theorem C16_subsample_covers_all_rows_witness :
    (MacenkoHistogram.CreatePixelSubsample counterDraw true 0 threePixels 5).1.length
      = threePixels.length ∧
    List.Perm (MacenkoHistogram.CreatePixelSubsample counterDraw true 0 threePixels 5).1
      threePixels :=
  C16_subsample_covers_all_rows counterDraw true 0 threePixels 5 (by decide)

end SubsampleClaims

/-! ## Null rows last -/

section NullRowsLast

variable {K : Type} [LinearOrderedField K]

/-- C9: for the orders ascending and descending, the output rows of `SortStainVectors` are the
input rows rearranged (a permutation of them), and in the output no row whose component sum
is below `1e-3` in absolute value stands before a row whose component sum is at least `1e-3`
in absolute value: whenever output row `i` is null and `i < j`, output row `j` is null. -/
theorem C9_null_rows_last (M out : Mat9 K) (sortOrder : Int)
    (horder : sortOrder = SortOrder.ASCENDING ∨ sortOrder = SortOrder.DESCENDING) :
    List.Perm
      [(SortStainVectors M out sortOrder).row 0, (SortStainVectors M out sortOrder).row 1,
        (SortStainVectors M out sortOrder).row 2]
      [M.row 0, M.row 1, M.row 2] ∧
    ∀ i j : Fin 3, i < j →
      abs (((SortStainVectors M out sortOrder).row i).c0
        + ((SortStainVectors M out sortOrder).row i).c1
        + ((SortStainVectors M out sortOrder).row i).c2) < 1 / 1000 →
      abs (((SortStainVectors M out sortOrder).row j).c0
        + ((SortStainVectors M out sortOrder).row j).c1
        + ((SortStainVectors M out sortOrder).row j).c2) < 1 / 1000 :=
  ⟨SortStainVectors_rows_perm M out sortOrder horder,
   fun i j hij hi => sorted_nulls_last_of_order M out sortOrder horder i j hij hi⟩

/-- C9 at `twoNullMat`, ascending: the sorted rows are `(1,1,1)`, `(0,0,0)`, `(0,0,0)`, a
permutation of the input rows `(0,0,0)`, `(0,0,0)`, `(1,1,1)`; output row 1 is null, and so is
output row 2. -/
theorem C9_null_rows_last_witness :
    List.Perm
      [(SortStainVectors twoNullMat Mat9.zero SortOrder.ASCENDING).row 0,
        (SortStainVectors twoNullMat Mat9.zero SortOrder.ASCENDING).row 1,
        (SortStainVectors twoNullMat Mat9.zero SortOrder.ASCENDING).row 2]
      [twoNullMat.row 0, twoNullMat.row 1, twoNullMat.row 2] ∧
    abs (((SortStainVectors twoNullMat Mat9.zero SortOrder.ASCENDING).row 1).c0
      + ((SortStainVectors twoNullMat Mat9.zero SortOrder.ASCENDING).row 1).c1
      + ((SortStainVectors twoNullMat Mat9.zero SortOrder.ASCENDING).row 1).c2) < 1 / 1000 ∧
    abs (((SortStainVectors twoNullMat Mat9.zero SortOrder.ASCENDING).row 2).c0
      + ((SortStainVectors twoNullMat Mat9.zero SortOrder.ASCENDING).row 2).c1
      + ((SortStainVectors twoNullMat Mat9.zero SortOrder.ASCENDING).row 2).c2) < 1 / 1000 :=
  have hi : abs (((SortStainVectors twoNullMat Mat9.zero SortOrder.ASCENDING).row 1).c0
      + ((SortStainVectors twoNullMat Mat9.zero SortOrder.ASCENDING).row 1).c1
      + ((SortStainVectors twoNullMat Mat9.zero SortOrder.ASCENDING).row 1).c2) < 1 / 1000 := by
    rw [sort_twoNullMat]
    norm_num [Mat9.row]
  ⟨(C9_null_rows_last twoNullMat Mat9.zero SortOrder.ASCENDING (Or.inl rfl)).1, hi,
   (C9_null_rows_last twoNullMat Mat9.zero SortOrder.ASCENDING (Or.inl rfl)).2 1 2
    (by decide) hi⟩

end NullRowsLast

/-! ## Row normalization in double arithmetic -/

section DoubleRounding

theorem roundHalfEven_eq (q : ℚ) (m : ℤ) (h1 : (m : ℚ) - 1 / 2 < q) (h2 : q < m + 1 / 2) :
    roundHalfEven q = m := by
  by_cases hq : (m : ℚ) ≤ q
  · have hf : ⌊q⌋ = m := Int.floor_eq_iff.mpr ⟨hq, by linarith⟩
    have hlt : q - (m : ℚ) < 1 / 2 := by linarith
    simp only [roundHalfEven, hf, hlt, if_true]
  · have hq2 : q < m := not_le.mp hq
    have hf : ⌊q⌋ = m - 1 := Int.floor_eq_iff.mpr ⟨by push_cast; linarith, by push_cast; linarith⟩
    have hlt : ¬ q - ((m - 1 : ℤ) : ℚ) < 1 / 2 := by push_cast; linarith
    have hgt : 1 / 2 < q - ((m - 1 : ℤ) : ℚ) := by push_cast; linarith
    simp only [roundHalfEven, hf, hlt, hgt, if_false, if_true]
    ring

theorem log_two_eq (x : ℚ) (a : ℤ) (h1 : (2 : ℚ) ^ a ≤ x) (h2 : x < (2 : ℚ) ^ (a + 1)) :
    Int.log 2 x = a := by
  have hpos : 0 < x := lt_of_lt_of_le (by positivity) h1
  have hle : a ≤ Int.log 2 x := (Int.zpow_le_iff_le_log (by norm_num) hpos).mp (by exact_mod_cast h1)
  have hlt : Int.log 2 x < a + 1 := (Int.lt_zpow_iff_log_lt (by norm_num) hpos).mp (by exact_mod_cast h2)
  omega

theorem roundDouble_eq (x : ℚ) (m k : ℤ) (hk : -1074 ≤ k)
    (hlo : (2 : ℚ) ^ (k + 52) ≤ x) (hhi : x < (2 : ℚ) ^ (k + 52 + 1))
    (h1 : ((m : ℚ) - 1 / 2) * 2 ^ k < x) (h2 : x < ((m : ℚ) + 1 / 2) * 2 ^ k) :
    roundDouble x = m * 2 ^ k := by
  have hpos : 0 < x := lt_of_lt_of_le (by positivity) hlo
  have hlog : Int.log 2 (abs x) = k + 52 := by
    rw [abs_of_pos hpos]; exact log_two_eq x (k + 52) hlo hhi
  have he : max (k + 52) (-1022) - 52 = k := by
    rw [max_eq_left (by omega)]; ring
  have h2k : (0 : ℚ) < 2 ^ k := by positivity
  have hr : roundHalfEven (x / 2 ^ k) = m :=
    roundHalfEven_eq _ m (by rw [lt_div_iff₀ h2k]; exact h1) (by rw [div_lt_iff₀ h2k]; exact h2)
  simp only [roundDouble, ne_of_gt hpos, if_false, hlog, he, hr]

theorem sqrtDouble_eq (x : ℚ) (m : ℕ) (k : ℤ)
    (hlo : (2 : ℚ) ^ (2 * k + 104) ≤ x) (hhi : x < (2 : ℚ) ^ (2 * k + 106))
    (h1 : ((m : ℚ) - 1 / 2) ^ 2 * 2 ^ (2 * k) < x) (h2 : x < ((m : ℚ) + 1 / 2) ^ 2 * 2 ^ (2 * k))
    (hm : 1 ≤ m) :
    sqrtDouble x = m * 2 ^ k := by
  have hpos : 0 < x := lt_of_lt_of_le (by positivity) hlo
  have hlog1 : 2 * k + 104 ≤ Int.log 2 x :=
    (Int.zpow_le_iff_le_log (by norm_num) hpos).mp (by exact_mod_cast hlo)
  have hlog2 : Int.log 2 x < 2 * k + 106 :=
    (Int.lt_zpow_iff_log_lt (by norm_num) hpos).mp (by exact_mod_cast hhi)
  have hk : Int.log 2 x / 2 - 52 = k := by omega
  have h2k : (0 : ℚ) < 2 ^ (2 * k) := by positivity
  set r : ℚ := x / 2 ^ (2 * k) with hr
  have hr1 : ((m : ℚ) - 1 / 2) ^ 2 < r := by rw [hr, lt_div_iff₀ h2k]; exact h1
  have hr2 : r < ((m : ℚ) + 1 / 2) ^ 2 := by rw [hr, div_lt_iff₀ h2k]; exact h2
  have hr0 : 0 ≤ r := le_of_lt (lt_of_le_of_lt (by positivity) hr1)
  set t : ℕ := Nat.sqrt ⌊r⌋₊ with ht
  have ht1 : ((t : ℚ)) ^ 2 ≤ r := by
    have h : t ^ 2 ≤ ⌊r⌋₊ := Nat.sqrt_le' ⌊r⌋₊
    have h' : ((t ^ 2 : ℕ) : ℚ) ≤ (⌊r⌋₊ : ℚ) := by exact_mod_cast h
    have hfl : (⌊r⌋₊ : ℚ) ≤ r := Nat.floor_le hr0
    push_cast at h'
    nlinarith
  have ht2 : r < ((t : ℚ) + 1) ^ 2 := by
    have h : ⌊r⌋₊ < (t + 1) ^ 2 := Nat.lt_succ_sqrt' ⌊r⌋₊
    have h' : ⌊r⌋₊ + 1 ≤ (t + 1) ^ 2 := h
    have h'' : ((⌊r⌋₊ + 1 : ℕ) : ℚ) ≤ (((t + 1) ^ 2 : ℕ) : ℚ) := by exact_mod_cast h'
    have hfl : r < (⌊r⌋₊ : ℚ) + 1 := Nat.lt_floor_add_one r
    push_cast at h''
    nlinarith
  have hmq : (1 : ℚ) ≤ m := by exact_mod_cast hm
  have htm : t ≤ m := by
    by_contra hc
    have hc' : m + 1 ≤ t := by omega
    have hcq : (m : ℚ) + 1 ≤ t := by exact_mod_cast hc'
    nlinarith
  have hmt : m ≤ t + 1 := by
    by_contra hc
    have hc' : t + 2 ≤ m := by omega
    have hcq : (t : ℚ) + 2 ≤ m := by exact_mod_cast hc'
    have ht0 : (0 : ℚ) ≤ t := by positivity
    nlinarith
  have hcase : t = m ∨ t + 1 = m := by omega
  simp only [sqrtDouble, not_le.mpr hpos, if_false, hk]
  rw [← hr, ← ht]
  rcases hcase with h | h
  · have hlt : r < (t : ℚ) ^ 2 + t + 1 / 4 := by
      have e : ((m : ℚ) + 1 / 2) ^ 2 = (t : ℚ) ^ 2 + t + 1 / 4 := by rw [← h]; ring
      rw [← e]; exact hr2
    rw [if_pos hlt, h]
  · have hmt' : (m : ℚ) = t + 1 := by exact_mod_cast h.symm
    have hgt : (t : ℚ) ^ 2 + t + 1 / 4 < r := by
      have e : ((m : ℚ) - 1 / 2) ^ 2 = (t : ℚ) ^ 2 + t + 1 / 4 := by rw [hmt']; ring
      rw [← e]; exact hr1
    have hnlt : ¬ r < (t : ℚ) ^ 2 + t + 1 / 4 := not_lt.mpr (le_of_lt hgt)
    rw [if_neg hnlt, if_pos hgt, h]

theorem roundDouble_zero : roundDouble 0 = 0 := by simp [roundDouble]

theorem sqrtDouble_zero : sqrtDouble 0 = 0 := by simp [sqrtDouble]

theorem roundDouble_one : roundDouble 1 = 1 := by
  have h := roundDouble_eq 1 (2 ^ 52) (-52) (by norm_num) (by norm_num) (by norm_num)
    (by norm_num) (by norm_num)
  rw [h]; norm_num

theorem roundDouble_two : roundDouble 2 = 2 := by
  have h := roundDouble_eq 2 (2 ^ 52) (-51) (by norm_num) (by norm_num) (by norm_num)
    (by norm_num) (by norm_num)
  rw [h]; norm_num

theorem sqrtDouble_two : sqrtDouble 2 = 6369051672525773 / 4503599627370496 := by
  have h := sqrtDouble_eq 2 6369051672525773 (-52) (by norm_num) (by norm_num) (by norm_num)
    (by norm_num) (by norm_num)
  rw [h]; norm_num

theorem roundDouble_threshold : roundDouble (10 / 1048576) = 10 / 1048576 := by
  have h := roundDouble_eq (10 / 1048576) 5629499534213120 (-69) (by norm_num) (by norm_num)
    (by norm_num) (by norm_num) (by norm_num)
  rw [h]; norm_num

theorem roundDouble_quotient :
    roundDouble (1 / (6369051672525773 / 4503599627370496))
      = 6369051672525772 / 9007199254740992 := by
  have h := roundDouble_eq (1 / (6369051672525773 / 4503599627370496)) 6369051672525772 (-53)
    (by norm_num) (by norm_num) (by norm_num) (by norm_num) (by norm_num)
  rw [h]; norm_num

theorem roundDouble_square :
    roundDouble (6369051672525772 / 9007199254740992 * (6369051672525772 / 9007199254740992))
      = 9007199254740990 / 18014398509481984 := by
  have h := roundDouble_eq
    (6369051672525772 / 9007199254740992 * (6369051672525772 / 9007199254740992))
    9007199254740990 (-54)
    (by norm_num) (by norm_num) (by norm_num) (by norm_num) (by norm_num)
  rw [h]; norm_num

theorem roundDouble_square_kept :
    roundDouble (9007199254740990 / 18014398509481984) = 9007199254740990 / 18014398509481984 := by
  have h := roundDouble_eq (9007199254740990 / 18014398509481984) 9007199254740990 (-54)
    (by norm_num) (by norm_num) (by norm_num) (by norm_num) (by norm_num)
  rw [h]; norm_num

theorem roundDouble_sum :
    roundDouble (9007199254740990 / 9007199254740992) = 9007199254740990 / 9007199254740992 := by
  have h := roundDouble_eq (9007199254740990 / 9007199254740992) 9007199254740990 (-53)
    (by norm_num) (by norm_num) (by norm_num) (by norm_num) (by norm_num)
  rw [h]; norm_num

theorem sqrtDouble_sum :
    sqrtDouble (9007199254740990 / 9007199254740992) = 9007199254740991 / 9007199254740992 := by
  have h := sqrtDouble_eq (9007199254740990 / 9007199254740992) 9007199254740991 (-53)
    (by norm_num) (by norm_num) (by norm_num) (by norm_num) (by norm_num)
  rw [h]; norm_num

theorem normDouble_row : NormDouble ⟨1, 1, 0⟩ = 6369051672525773 / 4503599627370496 := by
  simp only [NormDouble, addDouble, mulDouble]
  norm_num [roundDouble_zero, roundDouble_one, roundDouble_two, sqrtDouble_two]

theorem unitary_row :
    unitaryAddRowDouble (1 / 1048576) (NormDouble ⟨1, 1, 0⟩) ⟨1, 1, 0⟩
      = ⟨6369051672525772 / 9007199254740992, 6369051672525772 / 9007199254740992, 0⟩ := by
  have hthr : mulDouble 10 (1 / 1048576) = 10 / 1048576 := by
    rw [mulDouble]
    have e : (10 : ℚ) * (1 / 1048576) = 10 / 1048576 := by norm_num
    rw [e, roundDouble_threshold]
  have hq : divDouble 1 (6369051672525773 / 4503599627370496)
      = 6369051672525772 / 9007199254740992 := by
    rw [divDouble, roundDouble_quotient]
  have hz : divDouble 0 (6369051672525773 / 4503599627370496) = 0 := by
    rw [divDouble, zero_div, roundDouble_zero]
  have hbig : ¬ (6369051672525773 / 4503599627370496 : ℚ) < 10 / 1048576 := by norm_num
  rw [normDouble_row]
  simp only [unitaryAddRowDouble, hthr, hbig, decide_False, hq, hz]
  rfl

theorem normDouble_unitary_row :
    NormDouble ⟨6369051672525772 / 9007199254740992, 6369051672525772 / 9007199254740992, 0⟩
      = 9007199254740991 / 9007199254740992 := by
  have e1 : (0 : ℚ) + 9007199254740990 / 18014398509481984
      = 9007199254740990 / 18014398509481984 := by norm_num
  have e2 : (9007199254740990 / 18014398509481984 : ℚ) + 9007199254740990 / 18014398509481984
      = 9007199254740990 / 9007199254740992 := by norm_num
  have e3 : (9007199254740990 / 9007199254740992 : ℚ) + 0
      = 9007199254740990 / 9007199254740992 := by norm_num
  simp only [NormDouble, addDouble, mulDouble]
  rw [roundDouble_square, mul_zero, roundDouble_zero, e1, roundDouble_square_kept, e2,
    roundDouble_sum, e3, roundDouble_sum, sqrtDouble_sum]

theorem Make3x3MatrixUnitaryDouble_row (odMin : ℚ) (M out : Mat9 ℚ) (i : Fin 3) :
    (Make3x3MatrixUnitaryDouble odMin M out).row i
      = unitaryAddRowDouble odMin (NormDouble (M.row i)) (M.row i) := by
  fin_cases i <;> rfl

/-- C4, as stated, fails in the arithmetic of the code: with threshold `2^-20` the row
`(1, 1, 0)` has the double norm `1.4142135623730951`, which is not below ten times the
threshold; the output row is `(0.7071067811865475, 0.7071067811865475, 0)`, and its norm in
doubles is `1 - 2^-53 = 0.9999999999999999`, not 1. -/
theorem C4_double_norm_is_not_one :
    ¬ NormDouble (diagonalRowMat.row 0) < mulDouble 10 (1 / 1048576) ∧
    (Make3x3MatrixUnitaryDouble (1 / 1048576) diagonalRowMat diagonalRowMat).row 0
      = ⟨divDouble 1 (NormDouble (diagonalRowMat.row 0)),
         divDouble 1 (NormDouble (diagonalRowMat.row 0)),
         divDouble 0 (NormDouble (diagonalRowMat.row 0))⟩ ∧
    NormDouble ((Make3x3MatrixUnitaryDouble (1 / 1048576) diagonalRowMat diagonalRowMat).row 0)
      = 9007199254740991 / 9007199254740992 ∧
    NormDouble ((Make3x3MatrixUnitaryDouble (1 / 1048576) diagonalRowMat diagonalRowMat).row 0)
      ≠ 1 := by
  have hrow : diagonalRowMat.row 0 = ⟨1, 1, 0⟩ := rfl
  have hthr : mulDouble 10 (1 / 1048576) = 10 / 1048576 := by
    rw [mulDouble]
    have e : (10 : ℚ) * (1 / 1048576) = 10 / 1048576 := by norm_num
    rw [e, roundDouble_threshold]
  have hbig : ¬ NormDouble (diagonalRowMat.row 0) < mulDouble 10 (1 / 1048576) := by
    rw [hrow, normDouble_row, hthr]
    norm_num
  have hout : (Make3x3MatrixUnitaryDouble (1 / 1048576) diagonalRowMat diagonalRowMat).row 0
      = ⟨divDouble 1 (NormDouble (diagonalRowMat.row 0)),
         divDouble 1 (NormDouble (diagonalRowMat.row 0)),
         divDouble 0 (NormDouble (diagonalRowMat.row 0))⟩ := by
    rw [Make3x3MatrixUnitaryDouble_row]
    simp only [unitaryAddRowDouble, hbig, decide_False]
    rfl
  have hnorm : NormDouble
      ((Make3x3MatrixUnitaryDouble (1 / 1048576) diagonalRowMat diagonalRowMat).row 0)
      = 9007199254740991 / 9007199254740992 := by
    rw [Make3x3MatrixUnitaryDouble_row, hrow, unitary_row, normDouble_unitary_row]
  refine ⟨hbig, hout, hnorm, ?_⟩
  rw [hnorm]
  norm_num

end DoubleRounding

end StainVectorMath
